import Mathlib

/-!
# Verification of the Icarus edge-caching simulator runtime core

Shallow embedding of `icarus/execution/network.py` (NetworkModel /
NetworkView / NetworkController) and `icarus/execution/engine.py`
(`exec_experiment`) of the IcarusRepoSEND repository, together with proofs
settling the frozen specification claims about the runtime core.

Modelling conventions:
* Python node identifiers are either ints or strings (`PNode`).
* Python `dict`s are embedded as association lists preserving insertion
  order (Python 3.7+ dict semantics); `collections.Counter` is an
  association list from keys to integer counts.
* Python floats appearing as event timestamps are embedded as `PyFloat`
  (a rational, `inf`, `-inf` or `nan`) with Python's comparison semantics.
* Fallible operations (KeyError / AttributeError / ValueError / method
  call on `None`) return `Except String`.
-/

set_option linter.unusedVariables false
set_option maxRecDepth 8000

namespace Icarus

/-- A Python node identifier: an int or a string (topologies in this repo
use both, e.g. integer routers and string node names such as "src_0"). -/
inductive PNode where
  | num (n : ℤ)
  | str (s : String)
deriving DecidableEq, Repr

/-- A Python float as used for event timestamps: finite value, +inf, -inf
or NaN. -/
inductive PyFloat where
  | fin (q : ℚ)
  | inf
  | ninf
  | nan
deriving DecidableEq, Repr

/-- Python `<` on floats: NaN is incomparable with everything; -inf is
below every finite value and +inf; +inf is above everything. -/
def pyLt : PyFloat → PyFloat → Bool
  | .fin a, .fin b => a < b
  | .fin _, .inf => true
  | .fin _, _ => false
  | .ninf, .fin _ => true
  | .ninf, .inf => true
  | .ninf, _ => false
  | .inf, _ => false
  | .nan, _ => false

/-- Python `==` on floats: NaN compares unequal to everything, including
itself; `float('inf') == float('inf')` is `True`. -/
def pyEq : PyFloat → PyFloat → Bool
  | .fin a, .fin b => a == b
  | .inf, .inf => true
  | .ninf, .ninf => true
  | _, _ => false

/-- `time` is a finite float (neither an infinity nor NaN). -/
def PyFloat.isFinite : PyFloat → Bool
  | .fin _ => true
  | _ => false

/-- The `Event` class of `network.py`: arrival of a request to a node.
Only `time` takes part in ordering (`Event.__lt__`). -/
structure Event where
  time : PyFloat
  receiver : PNode
  service : ℤ
  labels : List String
  node : PNode
  flow_id : ℤ
  deadline : ℤ
  rtt_delay : ℤ
  status : ℤ
deriving DecidableEq, Repr

/-- `Event.__lt__`: events are ordered by `time` only. -/
def eventLt (e₁ e₂ : Event) : Bool :=
  pyLt e₁.time e₂.time

/-- Modelled from the spec: the shared min-heap holding events (Python's
`heapq`, an external library not under `src/`). A push appends the new
event; the heap's observable pop behaviour is modelled by `popMinEvent`
below, which extracts a minimal element under `eventLt`. -/
def heappushEvent (q : List Event) (e : Event) : List Event :=
  q ++ [e]

/-- Selection loop used by `popMinEvent`: walk the queue keeping the
current minimal event under `eventLt` and accumulating the rest. -/
def popMinGo : Event → List Event → List Event → Event × List Event
  | best, pre, [] => (best, pre.reverse)
  | best, pre, x :: xs =>
    if eventLt x best then popMinGo x (best :: pre) xs
    else popMinGo best (x :: pre) xs

/-- Modelled from the spec: popping the shared min-heap (`heapq.heappop`,
external) removes and returns a minimal event under `Event.__lt__`. -/
def popMinEvent : List Event → Option (Event × List Event)
  | [] => none
  | x :: xs => some (popMinGo x [] xs)

/-- `NetworkController.add_event` (network.py:1973-1979): raise
`ValueError` when `time == float('inf')`; otherwise construct the event
and push it onto the event queue. Note that the guard tests equality with
`float('inf')` only. -/
def addEvent (q : List Event) (time : PyFloat) (receiver : PNode)
    (service : ℤ) (labels : List String) (node : PNode) (flow_id : ℤ)
    (deadline : ℤ) (rtt_delay : ℤ) (status : ℤ) :
    Except String (List Event) :=
  if pyEq time PyFloat.inf then
    .error "ValueError: Invalid argument in add_event(): time parameter is infinite"
  else
    .ok (heappushEvent q ⟨time, receiver, service, labels, node, flow_id,
      deadline, rtt_delay, status⟩)

/-! ## The execution loop (`engine.py`, `exec_experiment`) -/

/-! ## Association lists (Python dicts) and `collections.Counter` -/

/-- Python dict lookup `d[k]` / membership `k in d`: first entry with the
given key, if any. -/
def alookup {α β : Type} [DecidableEq α] : List (α × β) → α → Option β
  | [], _ => none
  | (k, v) :: rest, a => if k = a then some v else alookup rest a

/-- Python dict assignment `d[k] = v`: replace the value at an existing
key in place, otherwise append the new binding (insertion order). -/
def aset {α β : Type} [DecidableEq α] : List (α × β) → α → β → List (α × β)
  | [], a, b => [(a, b)]
  | (k, v) :: rest, a, b =>
    if k = a then (a, b) :: rest else (k, v) :: aset rest a b

/-- Python dict deletion `del d[k]` / `d.pop(k)`: drop every entry with
the given key (on duplicate-free key lists this is exactly dict
deletion; `Counter.__delitem__` additionally ignores missing keys). -/
def adel {α β : Type} [DecidableEq α] (l : List (α × β)) (a : α) :
    List (α × β) :=
  l.filter (fun p => decide (p.1 ≠ a))

/-- Key list of an association list (Python `list(d)` / `d.keys()`). -/
def keys {α β : Type} (l : List (α × β)) : List α :=
  l.map Prod.fst

/-- A `collections.Counter`: keys with integer counts, in insertion
order. -/
abbrev Counter (α : Type) : Type := List (α × ℤ)

/-- `Counter` update for one key (`c[k] = c[k] + v` as performed by
`Counter.update`): bump an existing key in place, otherwise append. -/
def cAdd {α : Type} [DecidableEq α] (c : Counter α) (k : α) (v : ℤ) :
    Counter α :=
  if k ∈ keys c then
    c.map (fun p => if p.1 = k then (p.1, p.2 + v) else p)
  else c ++ [(k, v)]

/-- `Counter.update(other)`: add the counts of `other` entry by entry,
appending new keys in `other`'s iteration order. -/
def cUpdate {α : Type} [DecidableEq α] (c other : Counter α) : Counter α :=
  other.foldl (fun acc p => cAdd acc p.1 p.2) c

/-- `del counter[k]` (`Counter.__delitem__` ignores missing keys). -/
def cDel {α : Type} [DecidableEq α] (c : Counter α) (k : α) : Counter α :=
  adel c k

/-! ## Substring test (`"src" in n` on string node identifiers) -/

/-- `List.isPrefixOf` on characters, written out so that the claims'
proofs can unfold it. -/
def listPrefixOf : List Char → List Char → Bool
  | [], _ => true
  | _ :: _, [] => false
  | a :: as, b :: bs => a == b && listPrefixOf as bs

/-- Contiguous-substring test on character lists (Python `sub in s`). -/
def listInfixOf (needle : List Char) : List Char → Bool
  | [] => listPrefixOf needle []
  | h :: t => listPrefixOf needle (h :: t) || listInfixOf needle t

/-- The test `type(n) != int and "src" in n` of `NetworkView`
(network.py:401, 475, 564-565): a string node identifier containing the
substring `"src"`. -/
def srcStr : PNode → Bool
  | .num _ => false
  | .str s => listInfixOf "src".toList s.toList

/-! ## The network model state (`NetworkModel`) -/

/-- Modelled from the spec: a cache-policy instance (external registry
`CACHE_POLICY`, not under `src/`), exposing its capacity attribute
`maxlen` and the capability `get(id) -> bool`. -/
structure CacheInst where
  maxlen : ℕ
  getF : ℤ → Bool

/-- A message held by a repository-storage instance; only the
`'service_type'` entry is inspected by the ranking queries. -/
structure Msg where
  service_type : String

/-- Modelled from the spec: a repository-storage policy instance
(external registry `REPO_POLICY`, not under `src/`), exposing its `node`
attribute and the capabilities `hasMessage(id_or_none, labels)` and
`getTotalStorageSpace()`. -/
structure RepoInst where
  node : PNode
  hasMessageL : List String → Option Msg
  totalSpace : ℕ

/-- All-pairs shortest paths (`model.shortest_path`): the dict of dicts
is modelled as its key list together with a total path function over the
keys (`nx.all_pairs_dijkstra_path` of a connected topology yields an
entry for every ordered key pair). -/
structure SPMap where
  ks : List PNode
  f : PNode → PNode → List PNode

/-- Trivial path map, used where a fresh Dijkstra result is irrelevant
(link removals inside a node-removal cascade pass
`recompute_paths=False`, so no recomputation happens there). -/
def spTriv : SPMap :=
  ⟨[], fun _ _ => []⟩

/-- The topology graph (undirected `fnss.Topology`): per-node attribute
dicts and per-edge attribute dicts, each opaque to the embedded code and
modelled as an opaque payload. -/
structure Topology where
  nodes : List (PNode × ℕ)
  edges : List ((PNode × PNode) × ℕ)

/-- `NetworkModel`: the fields of network.py's model object that the
claims exercise.  `stack` records each node's fnss stack name
(`fnss.get_stack`). -/
structure NetworkModel where
  topology : Topology
  shortest_path : SPMap
  cache : List (PNode × CacheInst)
  local_cache : List (PNode × CacheInst)
  content_source : List (ℤ × List PNode)
  source_node : List (PNode × List ℤ)
  node_labels : List (PNode × Counter String)
  labels_sources : List (String × Counter PNode)
  request_labels : List (PNode × Counter String)
  request_labels_nodes : List (String × Counter PNode)
  storageSize : List (PNode × ℕ)
  repoStorage : List (PNode × RepoInst)
  eventQ : List Event
  stack : List (PNode × String)
  removed_nodes : List (PNode × ℕ)
  removed_links : List ((PNode × PNode) × ℕ)
  disconnected_neighbors : List (PNode × List PNode)
  removed_caches : List (PNode × CacheInst)
  removed_local_caches : List (PNode × CacheInst)
  removed_sources : List (PNode × List ℤ)

/-! ## `NetworkView.labels_sources` and `labels_requests` -/

/-- The conjunctive-filter test of `labels_sources`
(network.py:403-411): a node already recorded in `node_labels` is marked
for deletion when some requested label is missing from its label
counter; a node absent from `node_labels` is never marked. -/
def failsLabels (m : NetworkModel) (labels : List String) (n : PNode) :
    Bool :=
  match alookup m.node_labels n with
  | some cnt => !(labels.all (fun l => decide (l ∈ keys cnt)))
  | none => false

/-- The union loop of `labels_sources` (network.py:392-395):
`nodes.update(self.model.labels_sources[label])` for each requested
label, raising `KeyError` on an unknown label. -/
def lsUnion (m : NetworkModel) :
    List String → Counter PNode → Except String (Counter PNode)
  | [], acc => .ok acc
  | l :: ls, acc =>
    match alookup m.labels_sources l with
    | some cnt => lsUnion m ls (cUpdate acc cnt)
    | none => .error "KeyError: label not in labels_sources"

/-- The first pass of `labels_sources` (network.py:400-411): walk the
captured key list; delete `"src"`-string keys from the counter in place
and collect conjunctive-filter failures into `del_nodes`. -/
def labelsSourcesPass (m : NetworkModel) (labels : List String) :
    List PNode → Counter PNode × List PNode → Counter PNode × List PNode
  | [], p => p
  | n :: rest, p =>
    labelsSourcesPass m labels rest
      (if srcStr n then cDel p.1 n else p.1,
       if failsLabels m labels n then p.2 ++ [n] else p.2)

/-- `NetworkView.labels_sources` (network.py:378-416): union the per-label
source counters (`KeyError` on an unknown label), then delete
`"src"`-string nodes and nodes failing the conjunctive label filter. -/
def labelsSourcesFn (m : NetworkModel) (labels : List String) :
    Except String (Counter PNode) := do
  let nodes ← lsUnion m labels []
  let p := labelsSourcesPass m labels (keys nodes) (nodes, [])
  return p.2.foldl cDel p.1

/-- The conjunctive-filter test of `labels_requests`
(network.py:440-448) over the request-popularity index. -/
def failsReqLabels (m : NetworkModel) (r_labels : List String)
    (n : PNode) : Bool :=
  match alookup m.request_labels n with
  | some cnt => !(r_labels.all (fun l => decide (l ∈ keys cnt)))
  | none => false

/-- `NetworkView.labels_requests` (network.py:418-453): union the
per-label request counters (`dict.get` with default `None`; updating a
counter with `None` is a no-op), then delete nodes failing the
conjunctive filter. -/
def labelsRequestsFn (m : NetworkModel) (r_labels : List String) :
    Counter PNode :=
  let nodes := r_labels.foldl (fun acc l =>
    match alookup m.request_labels_nodes l with
    | some cnt => cUpdate acc cnt
    | none => acc) ([] : Counter PNode)
  let dels := (keys nodes).filter (failsReqLabels m r_labels)
  dels.foldl cDel nodes

/-! ## Composite ranking queries (`NetworkView`) -/

/-- Result of `all_labels_main_source`: either a bare `"src"`-string node
identifier or a repository instance (`storage_nodes()[n]`). -/
inductive AuthRes where
  | node (n : PNode)
  | repo (r : RepoInst)

/-- The selection loop of `all_labels_main_source` (network.py:470-479):
a candidate whose count passes the non-strict `count >= current_count`
test overrides the current choice; `"src"`-string candidates are taken
verbatim without updating the running count. -/
def mainSourceScan (repoStorage : List (PNode × RepoInst)) :
    List (PNode × ℤ) → ℤ → Option AuthRes →
    Except String (ℤ × Option AuthRes)
  | [], cur, auth => .ok (cur, auth)
  | (n, count) :: rest, cur, auth =>
    if count ≥ cur then
      if srcStr n then mainSourceScan repoStorage rest cur (some (.node n))
      else
        match alookup repoStorage n with
        | some r => mainSourceScan repoStorage rest count (some (.repo r))
        | none => .error "KeyError: node not in repoStorage"
    else mainSourceScan repoStorage rest cur auth

/-- `NetworkView.all_labels_main_source` (network.py:455-480). -/
def allLabelsMainSource (m : NetworkModel) (labels : List String) :
    Except String (Option AuthRes) := do
  let c ← labelsSourcesFn m labels
  let r ← mainSourceScan m.repoStorage c 0 none
  return r.2

/-- `NetworkView.hasStorageCapability` (network.py:994-999): the node has
a repository instance with a truthy total storage space. -/
def hasStorageCapability (m : NetworkModel) (n : PNode) : Bool :=
  match alookup m.repoStorage n with
  | some r => r.totalSpace != 0
  | none => false

/-- The selection loop of `all_labels_most_requests`
(network.py:506-509): non-strict `nodes[n] >= current_count` test,
additionally requiring storage capability. -/
def mostRequestsScan (m : NetworkModel) :
    List (PNode × ℤ) → ℤ → Option RepoInst →
    Except String (ℤ × Option RepoInst)
  | [], cur, auth => .ok (cur, auth)
  | (n, count) :: rest, cur, auth =>
    if count ≥ cur && hasStorageCapability m n then
      match alookup m.repoStorage n with
      | some r => mostRequestsScan m rest count (some r)
      | none => .error "KeyError: node not in repoStorage"
    else mostRequestsScan m rest cur auth

/-- `NetworkView.all_labels_most_requests` (network.py:482-510): restrict
the request-popularity counter to storage nodes, then scan with the
non-strict popularity test. -/
def allLabelsMostRequests (m : NetworkModel) (r_labels : List String) :
    Except String (Option RepoInst) := do
  let nodes := labelsRequestsFn m r_labels
  let dels := (keys nodes).filter (fun n => (alookup m.storageSize n).isNone)
  let nodes := dels.foldl cDel nodes
  let r ← mostRequestsScan m nodes 0 none
  return r.2

/-- First loop of `service_labels_closest_repo` (network.py:556-561):
collect, for every candidate holding a `"processed"` message matching
the labels, the hop count of the shortest path from the reference node
(`Counter.update({node: hops})`). -/
def closestRepoBuild (m : NetworkModel) (labels : List String)
    (node : PNode) : List PNode → Counter PNode →
    Except String (Counter PNode)
  | [], acc => .ok acc
  | n :: rest, acc =>
    match alookup m.repoStorage n with
    | none => .error "KeyError: node not in repoStorage"
    | some r =>
      match r.hasMessageL labels with
      | some msg =>
        let hops : ℤ := (m.shortest_path.f node n).length
        if msg.service_type == "processed" then
          closestRepoBuild m labels node rest (cAdd acc r.node hops)
        else closestRepoBuild m labels node rest acc
      | none => closestRepoBuild m labels node rest acc

/-- Second loop of `service_labels_closest_repo` (network.py:563-576):
`current_hops` starts at `float('inf')` and is threaded through the loop
unchanged, exactly as in the source, which never assigns to it; each
non-`"src"` candidate is compared against it with the strict `<` test. -/
def closestRepoScan (path : List PNode) (on_path : Bool) :
    List (PNode × ℤ) → PyFloat → Bool → Option PNode →
    Bool × Option PNode
  | [], _, inp, auth => (inp, auth)
  | (n, hops) :: rest, cur, inp, auth =>
    if srcStr n then closestRepoScan path on_path rest cur inp auth
    else if on_path then
      if decide (n ∈ path) && pyLt (.fin (hops : ℚ)) cur then
        closestRepoScan path on_path rest cur true (some n)
      else closestRepoScan path on_path rest cur inp auth
    else if decide (n ∈ path) && pyLt (.fin (hops : ℚ)) cur then
      closestRepoScan path on_path rest cur true (some n)
    else if pyLt (.fin (hops : ℚ)) cur then
      closestRepoScan path on_path rest cur false (some n)
    else closestRepoScan path on_path rest cur inp auth

/-- `NetworkView.service_labels_closest_repo` (network.py:536-578). -/
def serviceLabelsClosestRepo (m : NetworkModel) (labels : List String)
    (node : PNode) (path : List PNode) (on_path : Bool) :
    Except String (Bool × Option PNode) := do
  let c ← labelsSourcesFn m labels
  let built ← closestRepoBuild m labels node (keys c) []
  return closestRepoScan path on_path built .inf false none

/-! ## `symmetrify_paths` (network.py:92-116) -/

/-- Assignment `shortest_paths[u][v] = p` on the total-function model of
the dict of dicts. -/
def spUpdate (f : PNode → PNode → List PNode) (u v : PNode)
    (p : List PNode) : PNode → PNode → List PNode :=
  fun a b => if a = u ∧ b = v then p else f a b

/-- Inner loop of `symmetrify_paths`: for a fixed `u`, iterate `v` over
the key list performing `sp[u][v] = list(reversed(sp[v][u]))`. -/
def symInner (u : PNode) : List PNode → (PNode → PNode → List PNode) →
    PNode → PNode → List PNode
  | [], f => f
  | v :: vs, f => symInner u vs (spUpdate f u v (f v u).reverse)

/-- Outer loop of `symmetrify_paths`: iterate `u` over the key list. -/
def symOuter : List PNode → List PNode → (PNode → PNode → List PNode) →
    PNode → PNode → List PNode
  | [], _, f => f
  | u :: us, vs, f => symOuter us vs (symInner u vs f)

/-- `symmetrify_paths` (network.py:92-116): sequentially overwrite
`sp[u][v]` with the reverse of the current `sp[v][u]` for every ordered
key pair, in iteration order. -/
def symmetrify (sp : SPMap) : SPMap :=
  ⟨sp.ks, symOuter sp.ks sp.ks sp.f⟩

/-! ## The controller (`NetworkController`) -/

/-- A session-table entry (`self.session[flow_id]`, network.py:1462). -/
structure Sess where
  timestamp : ℚ
  receiver : PNode
  content : ℤ
  labels : List String
  log : Bool
  deadline : ℤ

/-- Controller state: the model, the session table keyed by flow id
(flow ids share the int-or-string identifier type) and whether a
collector (instrumentation sink) is attached. -/
structure Ctrl where
  model : NetworkModel
  session : List (PNode × Sess)
  collector : Bool

/-- A notification forwarded to the attached collector. -/
inductive Rpt where
  | cacheHit (n : PNode)
  | cacheMiss (n : PNode)
  | serverHit (n : PNode)
  | sessStart (flow : PNode)
  | sessEnd (success : Bool) (flow : PNode)
deriving DecidableEq, Repr

/-- `NetworkController.start_session` (network.py:1441-1472): insert the
session entry, then call `self.collector.start_session(...)`
unconditionally — the guard `if self.collector is not None and ...` is
commented out in the source, so a missing collector raises
`AttributeError` (after the table was already mutated; the embedding
reports the error). -/
def startSession (st : Ctrl) (timestamp : ℚ) (receiver : PNode)
    (content : ℤ) (labels : List String) (log : Bool) (flow_id : PNode)
    (deadline : ℤ) : Except String (Ctrl × List Rpt) :=
  let st' := { st with session := (aset st.session flow_id
    ⟨timestamp, receiver, content, labels, log, deadline⟩) }
  if st.collector then .ok (st', [Rpt.sessStart flow_id])
  else .error "AttributeError: 'NoneType' object has no attribute 'start_session'"

/-- `NetworkController.end_session` (network.py:2018-2028): call
`self.collector.end_session(...)` unconditionally (guard commented out),
then pop the session entry (`pop(flow_id, None)`, missing keys
tolerated). -/
def endSession (st : Ctrl) (success : Bool) (timestamp : ℚ)
    (flow_id : PNode) : Except String (Ctrl × List Rpt) :=
  if st.collector then
    .ok ({ st with session := adel st.session flow_id },
         [Rpt.sessEnd success flow_id])
  else .error "AttributeError: 'NoneType' object has no attribute 'end_session'"

/-- `NetworkController.get_content` (network.py:1894-1922).  With a cache
at the node, the cache outcome is returned directly (hit and miss are
both reported via unguarded collector calls).  Only a cache-less node
reaches the `fnss.get_stack` origin check; a `'source'` stack returns
`True`, reporting a server hit only when a collector is attached and
`self.session['log']` — a lookup of the literal key `'log'` in the
flow-id-keyed session table — finds a (truthy) entry; with a collector
and no such entry the lookup raises `KeyError`. -/
def getContent (st : Ctrl) (node : PNode) (content : ℤ) :
    Except String (Bool × List Rpt) :=
  match alookup st.model.cache node with
  | some c =>
    let hit := c.getF content
    if st.collector then
      .ok (hit, [if hit then Rpt.cacheHit node else Rpt.cacheMiss node])
    else .error "AttributeError: 'NoneType' object has no attribute 'cache_hit'"
  | none =>
    match alookup st.model.stack node with
    | some name =>
      if name == "source" then
        if st.collector then
          match alookup st.session (PNode.str "log") with
          | some _ => .ok (true, [Rpt.serverHit node])
          | none => .error "KeyError: 'log'"
        else .ok (true, [])
      else .ok (false, [])
    | none => .error "TypeError: fnss.get_stack returned no stack"

/-! ## Topology fault injection / recovery -/

/-- Neighbors of `v` in the undirected topology (`topology.edge[v]`). -/
def topoAdj (t : Topology) (v : PNode) : List PNode :=
  t.edges.filterMap (fun p =>
    if p.1.1 = v then some p.1.2
    else if p.1.2 = v then some p.1.1
    else none)

/-- Attribute dict of the undirected edge `{u, v}`
(`topology.edge[u][v]`). -/
def edgeAttr (t : Topology) (u v : PNode) : Option ℕ :=
  match alookup t.edges (u, v) with
  | some a => some a
  | none => alookup t.edges (v, u)

/-- `topology.remove_edge(u, v)` on the undirected graph. -/
def removeEdge (t : Topology) (u v : PNode) : Topology :=
  { t with edges := t.edges.filter (fun p =>
      decide (p.1 ≠ (u, v)) && decide (p.1 ≠ (v, u))) }

/-- `topology.add_edge(u, v, **attrs)` on the undirected graph. -/
def addEdge (t : Topology) (u v : PNode) (a : ℕ) : Topology :=
  { t with edges := (removeEdge t u v).edges ++ [((u, v), a)] }

/-- The tail of every mutating topology operation: when
`recompute_paths` is set, recompute all-pairs shortest paths
(`nx.all_pairs_dijkstra_path`, external — its output is the `fresh`
argument) and symmetrize them. -/
def recomputePaths (m : NetworkModel) (recompute : Bool) (fresh : SPMap) :
    NetworkModel :=
  if recompute then { m with shortest_path := symmetrify fresh } else m

/-- `NetworkController.remove_link` (network.py:2056-2082): stash the
edge attributes under the ordered key `(u, v)` (`KeyError` when the edge
is absent), remove the edge, optionally recompute symmetrized paths. -/
def removeLink (m : NetworkModel) (u v : PNode) (recompute : Bool)
    (fresh : SPMap) : Except String NetworkModel :=
  match edgeAttr m.topology u v with
  | none => .error "KeyError: no edge (u, v) in topology"
  | some a =>
    let m := { m with removed_links := aset m.removed_links (u, v) a,
                      topology := removeEdge m.topology u v }
    .ok (recomputePaths m recompute fresh)

/-- `NetworkController.restore_link` (network.py:2084-2099): pop the
stashed attributes under the ordered key `(u, v)` (`KeyError` when the
link was not removed under that exact key), re-add the edge, optionally
recompute symmetrized paths. -/
def restoreLink (m : NetworkModel) (u v : PNode) (recompute : Bool)
    (fresh : SPMap) : Except String NetworkModel :=
  match alookup m.removed_links (u, v) with
  | none => .error "KeyError: link (u, v) not in removed_links"
  | some a =>
    let m := { m with removed_links := adel m.removed_links (u, v),
                      topology := addEdge m.topology u v a }
    .ok (recomputePaths m recompute fresh)

/-- `NetworkController.rewire_link` (network.py:2030-2054): move the edge
`(u, v)` with its attributes to the endpoints `(up, vp)`, optionally
recomputing symmetrized paths. -/
def rewireLink (m : NetworkModel) (u v up vp : PNode) (recompute : Bool)
    (fresh : SPMap) : Except String NetworkModel :=
  match edgeAttr m.topology u v with
  | none => .error "KeyError: no edge (u, v) in topology"
  | some a =>
    let m := { m with topology := addEdge (removeEdge m.topology u v) up vp a }
    .ok (recomputePaths m recompute fresh)

/-- `NetworkController.remove_node` (network.py:2101-2151): snapshot the
node attributes, capture the currently connected neighbors, cascade
`remove_link(v, u)` for each, remove the node, stash cache and local
cache, and stash the source list — whose contents loop dereferences
`self.model.countent_source`, an attribute that is never created
anywhere in `NetworkModel` (the initialised attribute is spelled
`content_source`), so a node owning a nonempty source list raises
`AttributeError`. -/
def removeNodeCore (m : NetworkModel) (v : PNode) :
    Except String NetworkModel := do
  match alookup m.topology.nodes v with
  | none => .error "KeyError: node not in topology"
  | some attrs =>
    let m := { m with removed_nodes := aset m.removed_nodes v attrs }
    let nbrs := topoAdj m.topology v
    let m := { m with disconnected_neighbors :=
      (aset m.disconnected_neighbors v nbrs) }
    let m ← nbrs.foldlM (fun acc u => removeLink acc v u false spTriv) m
    let m := { m with topology :=
      { nodes := adel m.topology.nodes v,
        edges := m.topology.edges.filter (fun p =>
          decide (p.1.1 ≠ v) && decide (p.1.2 ≠ v)) } }
    let m := match alookup m.cache v with
      | some c => { m with removed_caches := aset m.removed_caches v c,
                           cache := adel m.cache v }
      | none => m
    let m := match alookup m.local_cache v with
      | some c => { m with
          removed_local_caches := aset m.removed_local_caches v c,
          local_cache := adel m.local_cache v }
      | none => m
    match alookup m.source_node v with
    | some conts =>
      let m := { m with removed_sources := aset m.removed_sources v conts,
                        source_node := adel m.source_node v }
      if conts.isEmpty then .ok m
      else .error "AttributeError: 'NetworkModel' object has no attribute 'countent_source'"
    | none => .ok m

/-- `NetworkController.remove_node` with its optional trailing
shortest-path recomputation (the cascaded `remove_link` calls inside the
core pass `recompute_paths=False`, so only the final recomputation ever
touches `shortest_path`). -/
def removeNode (m : NetworkModel) (v : PNode) (recompute : Bool)
    (fresh : SPMap) : Except String NetworkModel :=
  (removeNodeCore m v).map (fun m2 => recomputePaths m2 recompute fresh)

/-- `NetworkController.restore_node` (network.py:2153-2178): reinsert the
node with its snapshotted attributes, restore exactly those links to the
disconnected-neighbor set that are still in `removed_links` under the
key `(v, u)`, and reinstate the stashed cache / local cache / source
list — whose contents loop dereferences the nonexistent attribute
`countent_source`, raising `AttributeError` for a nonempty source
list. -/
def restoreNodeCore (m : NetworkModel) (v : PNode) :
    Except String NetworkModel := do
  match alookup m.removed_nodes v with
  | none => .error "KeyError: node not in removed_nodes"
  | some attrs =>
    let m := { m with
      removed_nodes := adel m.removed_nodes v,
      topology := { m.topology with
        nodes := aset m.topology.nodes v attrs } }
    match alookup m.disconnected_neighbors v with
    | none => .error "KeyError: node not in disconnected_neighbors"
    | some nbrs =>
      let m ← nbrs.foldlM (fun acc u =>
        if (alookup acc.removed_links (v, u)).isSome then
          restoreLink acc v u false spTriv
        else .ok acc) m
      let m := { m with disconnected_neighbors :=
        (adel m.disconnected_neighbors v) }
      let m := match alookup m.removed_caches v with
        | some c => { m with cache := aset m.cache v c,
                             removed_caches := adel m.removed_caches v }
        | none => m
      let m := match alookup m.removed_local_caches v with
        | some c => { m with local_cache := aset m.local_cache v c,
                             removed_local_caches :=
                               adel m.removed_local_caches v }
        | none => m
      match alookup m.removed_sources v with
      | some conts =>
        let m := { m with source_node := aset m.source_node v conts,
                          removed_sources := adel m.removed_sources v }
        if conts.isEmpty then .ok m
        else .error "AttributeError: 'NetworkModel' object has no attribute 'countent_source'"
      | none => .ok m

/-- `NetworkController.restore_node` with its optional trailing
shortest-path recomputation (the `restore_link` calls inside the core
pass `recompute_paths=False`). -/
def restoreNode (m : NetworkModel) (v : PNode) (recompute : Bool)
    (fresh : SPMap) : Except String NetworkModel :=
  (restoreNodeCore m v).map (fun m2 => recomputePaths m2 recompute fresh)

/-! ## `reserve_local_cache` (network.py:2180-2209) -/

/-- Modelled from the spec: `iround` from `icarus/util.py` (not under
`src/`), described by the spec as rounding the scaled capacity to the
nearest integer; embedded as round-half-up on rationals. -/
def iround (x : ℚ) : ℤ :=
  ⌊x + 1 / 2⌋

/-- One iteration of the `reserve_local_cache` loop over
`list(self.model.cache.items())`: replace the coordinated cache with a
fresh instance of the rounded remainder capacity (dropping the entry
when it rounds to zero) and install a fresh local cache of the rounded
reserved capacity (only when it rounds to a positive size).  A freshly
constructed policy instance starts empty (its `get` misses). -/
def reserveStep (ratio : ℚ)
    (st : List (PNode × CacheInst) × List (PNode × CacheInst))
    (p : PNode × CacheInst) :
    List (PNode × CacheInst) × List (PNode × CacheInst) :=
  let maxlen := iround ((p.2.maxlen : ℚ) * (1 - ratio))
  let caches := if maxlen > 0 then aset st.1 p.1 ⟨maxlen.toNat, fun _ => false⟩
    else adel st.1 p.1
  let llen := iround ((p.2.maxlen : ℚ) * ratio)
  let locals := if llen > 0 then aset st.2 p.1 ⟨llen.toNat, fun _ => false⟩
    else st.2
  (caches, locals)

/-- `NetworkController.reserve_local_cache` (network.py:2180-2209):
reject a ratio outside `[0, 1]` with `ValueError`, otherwise split every
existing cache. -/
def reserveLocalCache (m : NetworkModel) (ratio : ℚ) :
    Except String NetworkModel :=
  if ratio < 0 ∨ ratio > 1 then
    .error "ValueError: ratio must be between 0 and 1"
  else
    let st := m.cache.foldl (reserveStep ratio) (m.cache, m.local_cache)
    .ok { m with cache := st.1, local_cache := st.2 }

/-- One workload entry as consumed by `exec_experiment`: only the `status`
field of the event attribute map takes part in the snapshot bookkeeping. -/
structure WEvent where
  status : ℤ
deriving DecidableEq, Repr

/-- The snapshot bookkeeping of the main loop of `exec_experiment`
(engine.py:65-73): starting from counter `n`, for each processed event
record whether `collector.results()` is requested at that event
(`n % 500 == 0 and n`), then increment `n` if the event's `status`
equals 1. Returns one Boolean per processed event. -/
def snapTrace : ℕ → List WEvent → List Bool
  | _, [] => []
  | n, e :: rest =>
    ((n % 500 == 0) && (n != 0)) ::
      snapTrace (if e.status == 1 then n + 1 else n) rest

/-- Interim-snapshot trace of a full run of `exec_experiment` (the loop
starts with `n = 0`). -/
def execSnaps (events : List WEvent) : List Bool :=
  snapTrace 0 events

/-- Number of interim `collector.results()` snapshots requested during a
run of `exec_experiment` over the given workload. -/
def snapCount (events : List WEvent) : ℕ :=
  (execSnaps events).count true

/-- Number of events with `status == 1` in a workload prefix. -/
def status1Count (events : List WEvent) : ℕ :=
  (events.filter (fun e => e.status == 1)).length

/-! ## Concrete states used by the counterexamples and witnesses -/

/-- A network model with every index empty: baseline for the concrete
test states below. -/
def emptyModel : NetworkModel where
  topology := ⟨[], []⟩
  shortest_path := spTriv
  cache := []
  local_cache := []
  content_source := []
  source_node := []
  node_labels := []
  labels_sources := []
  request_labels := []
  request_labels_nodes := []
  storageSize := []
  repoStorage := []
  eventQ := []
  stack := []
  removed_nodes := []
  removed_links := []
  disconnected_neighbors := []
  removed_caches := []
  removed_local_caches := []
  removed_sources := []

/-- Node 2 has a cache (whose policy misses every content) and carries a
`'source'` stack: an origin node with a cache. -/
def mC1 : NetworkModel :=
  { emptyModel with
    cache := [(.num 2, ⟨10, fun _ => false⟩)],
    stack := [(.num 2, "source")] }

/-- Controller over `mC1` with a collector attached and an empty session
table. -/
def ctrlC1 : Ctrl :=
  ⟨mC1, [], true⟩

/-- A session entry used by the concrete states. -/
def sessD : Sess :=
  ⟨0, .num 0, 7, [], true, 0⟩

/-- Cache-less origin node 3 and cache-less router node 4. -/
def mC1b : NetworkModel :=
  { emptyModel with stack := [(.num 3, "source"), (.num 4, "router")] }

/-- Controller over `mC1b` with no collector attached. -/
def ctrlC1noc : Ctrl :=
  ⟨mC1b, [], false⟩

/-- Controller over `mC1b` with a collector and a session entry stored
under the literal flow key `'log'`. -/
def ctrlC1log : Ctrl :=
  ⟨mC1b, [(.str "log", sessD)], true⟩

/-- Controller over `mC1b` with a collector and an empty session table
(no entry under the literal key `'log'`). -/
def ctrlC1nolog : Ctrl :=
  ⟨mC1b, [], true⟩

/-- Two-node topology in which node 1 is a content source persistently
holding content 7. -/
def mC2 : NetworkModel :=
  { emptyModel with
    topology := ⟨[(.num 0, 0), (.num 1, 0)], [((.num 0, .num 1), 5)]⟩,
    source_node := [(.num 1, [7])],
    content_source := [(7, [.num 1])] }

/-- A fresh Dijkstra result on two nodes (paths `[a]` on the diagonal,
`[a, b]` off it). -/
def spC3 : SPMap :=
  ⟨[.num 0, .num 1], fun a b => if a = b then [a] else [a, b]⟩

/-- Two connected nodes, for exercising the link mutations. -/
def mC3 : NetworkModel :=
  { emptyModel with
    topology := ⟨[(.num 0, 0), (.num 1, 0)], [((.num 0, .num 1), 1)]⟩ }

/-- The label-conjunction scenario: node 1 advertises only `"sports"`,
node 2 advertises `"sports"` and `"news"`. -/
def mC4 : NetworkModel :=
  { emptyModel with
    labels_sources := [("sports", [(.num 1, 1), (.num 2, 1)]),
                       ("news", [(.num 2, 1)])],
    node_labels := [(.num 1, [("sports", 1)]),
                    (.num 2, [("sports", 1), ("news", 1)])] }

/-- Two storage nodes 1 and 2, both advertising label `"a"` and both
holding a processed message, at equal hop distance (every path in the
path map has two hops). -/
def mC5 : NetworkModel :=
  { emptyModel with
    labels_sources := [("a", [(.num 1, 1), (.num 2, 1)])],
    node_labels := [(.num 1, [("a", 1)]), (.num 2, [("a", 1)])],
    repoStorage := [(.num 1, ⟨.num 1, fun _ => some ⟨"processed"⟩, 1⟩),
                    (.num 2, ⟨.num 2, fun _ => some ⟨"processed"⟩, 1⟩)],
    shortest_path := ⟨[], fun a b => [a, b]⟩ }

/-- Repository instances for the comparator-semantics witness. -/
def repoW1 : RepoInst :=
  ⟨.num 11, fun _ => none, 1⟩

/-- Second repository instance for the comparator-semantics witness. -/
def repoW2 : RepoInst :=
  ⟨.num 12, fun _ => none, 1⟩

/-- Model carrying two storage-capable repository nodes 11 and 12. -/
def mW5 : NetworkModel :=
  { emptyModel with
    repoStorage := [(.num 11, repoW1), (.num 12, repoW2)] }

/-- Controller with no collector attached. -/
def ctrlC6 : Ctrl :=
  ⟨emptyModel, [], false⟩

/-- Controller with a collector attached. -/
def ctrlC6b : Ctrl :=
  ⟨emptyModel, [], true⟩

/-- A single cache of capacity 4 and an empty local-cache map. -/
def mC9 : NetworkModel :=
  { emptyModel with cache := [(.num 0, ⟨4, fun _ => false⟩)] }

/-- A `"src"`-string source node and an integer node, both advertising
label `"a"`. -/
def mC10 : NetworkModel :=
  { emptyModel with
    labels_sources := [("a", [(.str "n_src", 1), (.num 1, 1)])],
    node_labels := [(.str "n_src", [("a", 1)]), (.num 1, [("a", 1)])] }

/-! ## Association-list and counter lemmas -/

theorem alookup_aset_self {α β : Type} [DecidableEq α]
    (l : List (α × β)) (k : α) (b : β) : alookup (aset l k b) k = some b := by
  induction l with
  | nil => simp [aset, alookup]
  | cons p rest ih =>
    obtain ⟨x, y⟩ := p
    by_cases h : x = k
    · simp [aset, h, alookup]
    · simp [aset, h, alookup, ih]

theorem alookup_aset_ne {α β : Type} [DecidableEq α]
    (l : List (α × β)) (k a : α) (b : β) (h : k ≠ a) :
    alookup (aset l k b) a = alookup l a := by
  induction l with
  | nil => simp [aset, alookup, h]
  | cons p rest ih =>
    obtain ⟨x, y⟩ := p
    by_cases hxk : x = k
    · subst hxk
      simp [aset, alookup, h]
    · by_cases hxa : x = a
      · subst hxa
        simp [aset, hxk, alookup, Ne.symm h]
      · simp [aset, hxk, alookup, hxa, ih]

theorem adel_cons {α β : Type} [DecidableEq α]
    (x : α) (y : β) (rest : List (α × β)) (k : α) :
    adel ((x, y) :: rest) k =
      if x = k then adel rest k else (x, y) :: adel rest k := by
  by_cases h : x = k <;> simp [adel, List.filter_cons, h]

theorem alookup_adel_self {α β : Type} [DecidableEq α]
    (l : List (α × β)) (k : α) : alookup (adel l k) k = none := by
  induction l with
  | nil => simp [adel, alookup]
  | cons p rest ih =>
    obtain ⟨x, y⟩ := p
    rw [adel_cons]
    by_cases h : x = k
    · simpa [h] using ih
    · simpa [h, alookup] using ih

theorem alookup_adel_ne {α β : Type} [DecidableEq α]
    (l : List (α × β)) (k a : α) (h : k ≠ a) :
    alookup (adel l k) a = alookup l a := by
  induction l with
  | nil => simp [adel, alookup]
  | cons p rest ih =>
    obtain ⟨x, y⟩ := p
    rw [adel_cons]
    by_cases hxk : x = k
    · subst hxk
      simpa [alookup, h] using ih
    · by_cases hxa : x = a
      · subst hxa
        simp [alookup, hxk]
      · simp [alookup, hxk, hxa, ih]

theorem alookup_mem {α β : Type} [DecidableEq α]
    {l : List (α × β)} {a : α} {b : β} (h : alookup l a = some b) :
    (a, b) ∈ l := by
  induction l with
  | nil => simp [alookup] at h
  | cons p rest ih =>
    obtain ⟨x, y⟩ := p
    by_cases hx : x = a
    · subst hx
      simp [alookup] at h
      subst h
      exact List.mem_cons_self _ _
    · simp [alookup, hx] at h
      exact List.mem_cons_of_mem _ (ih h)

theorem mem_keys_of_alookup {α β : Type} [DecidableEq α]
    {l : List (α × β)} {a : α} {b : β} (h : alookup l a = some b) :
    a ∈ keys l :=
  List.mem_map_of_mem Prod.fst (alookup_mem h)

theorem alookup_eq_none_of_not_mem {α β : Type} [DecidableEq α]
    {l : List (α × β)} {a : α} (h : a ∉ keys l) : alookup l a = none := by
  induction l with
  | nil => simp [alookup]
  | cons p rest ih =>
    obtain ⟨x, y⟩ := p
    simp only [keys, List.map_cons, List.mem_cons] at h
    push_neg at h
    have h1 : x ≠ a := fun hc => h.1 hc.symm
    simp only [alookup, h1, if_false]
    exact ih h.2

theorem alookup_of_mem_nodup {α β : Type} [DecidableEq α]
    {l : List (α × β)} {a : α} {b : β} (hnd : (keys l).Nodup)
    (h : (a, b) ∈ l) : alookup l a = some b := by
  induction l with
  | nil => simp at h
  | cons p rest ih =>
    obtain ⟨x, y⟩ := p
    simp only [keys, List.map_cons, List.nodup_cons] at hnd
    rcases List.mem_cons.mp h with h1 | h1
    · rw [Prod.ext_iff] at h1
      obtain ⟨ha, hb⟩ := h1
      simp only at ha hb
      subst ha
      subst hb
      simp [alookup]
    · have hxa : x ≠ a := by
        intro hc
        subst hc
        exact hnd.1 (List.mem_map_of_mem Prod.fst h1)
      simp only [alookup, hxa, if_false]
      exact ih hnd.2 h1

theorem mem_keys_iff {α β : Type} (l : List (α × β)) (a : α) :
    a ∈ keys l ↔ ∃ b, (a, b) ∈ l := by
  simp only [keys, List.mem_map]
  constructor
  · rintro ⟨⟨x, y⟩, hm, rfl⟩
    exact ⟨y, hm⟩
  · rintro ⟨b, hb⟩
    exact ⟨(a, b), hb, rfl⟩

theorem keys_cAdd {α : Type} [DecidableEq α]
    (c : Counter α) (k : α) (v : ℤ) :
    keys (cAdd c k v) = if k ∈ keys c then keys c else keys c ++ [k] := by
  unfold cAdd
  by_cases h : k ∈ keys c
  · simp only [h, if_true]
    unfold keys
    rw [List.map_map]
    apply List.map_congr_left
    intro p hp
    by_cases hpk : p.1 = k <;> simp [hpk]
  · simp only [h, if_false]
    simp [keys]

theorem mem_keys_cAdd {α : Type} [DecidableEq α]
    (c : Counter α) (k a : α) (v : ℤ) :
    a ∈ keys (cAdd c k v) ↔ a ∈ keys c ∨ a = k := by
  rw [keys_cAdd]
  by_cases h : k ∈ keys c
  · simp only [h, if_true]
    constructor
    · exact Or.inl
    · rintro (hm | rfl)
      · exact hm
      · exact h
  · simp [h]

theorem mem_keys_cUpdate {α : Type} [DecidableEq α]
    (c o : Counter α) (a : α) :
    a ∈ keys (cUpdate c o) ↔ a ∈ keys c ∨ a ∈ keys o := by
  induction o generalizing c with
  | nil => simp [cUpdate, keys]
  | cons p rest ih =>
    obtain ⟨x, y⟩ := p
    unfold cUpdate at ih ⊢
    simp only [List.foldl_cons]
    rw [ih, mem_keys_cAdd]
    simp only [keys, List.map_cons, List.mem_cons]
    tauto

theorem mem_keys_cDel {α : Type} [DecidableEq α]
    (c : Counter α) (k a : α) :
    a ∈ keys (cDel c k) ↔ a ∈ keys c ∧ a ≠ k := by
  unfold cDel adel
  constructor
  · intro hm
    rcases List.mem_map.mp hm with ⟨⟨x, y⟩, hxy, hx⟩
    rcases List.mem_filter.mp hxy with ⟨hmem, hcond⟩
    simp at hcond
    subst hx
    exact ⟨List.mem_map_of_mem Prod.fst hmem, hcond⟩
  · rintro ⟨hm, hne⟩
    rcases List.mem_map.mp hm with ⟨⟨x, y⟩, hxy, hx⟩
    subst hx
    apply List.mem_map_of_mem Prod.fst
    exact List.mem_filter.mpr ⟨hxy, by simpa using hne⟩

theorem mem_keys_foldl_cDel {α : Type} [DecidableEq α]
    (dels : List α) (c : Counter α) (a : α) :
    a ∈ keys (dels.foldl cDel c) ↔ a ∈ keys c ∧ a ∉ dels := by
  induction dels generalizing c with
  | nil => simp
  | cons d rest ih =>
    simp only [List.foldl_cons]
    rw [ih, mem_keys_cDel]
    constructor
    · rintro ⟨⟨h1, h2⟩, h3⟩
      exact ⟨h1, by simp [h2, h3]⟩
    · rintro ⟨h1, h2⟩
      simp only [List.mem_cons, not_or] at h2
      exact ⟨⟨h1, h2.1⟩, h2.2⟩

/-! ## C8: interim snapshot bookkeeping of the execution loop -/

theorem status1Count_cons (e : WEvent) (l : List WEvent) :
    status1Count (e :: l) =
      (if e.status == 1 then 1 else 0) + status1Count l := by
  unfold status1Count
  by_cases h : e.status == 1 <;> simp [List.filter_cons, h, Nat.add_comm]

theorem snapTrace_length (n : ℕ) (evs : List WEvent) :
    (snapTrace n evs).length = evs.length := by
  induction evs generalizing n with
  | nil => rfl
  | cons e rest ih => simp [snapTrace, ih]

theorem snapTrace_getD (evs : List WEvent) (n i : ℕ)
    (h : i < evs.length) :
    (snapTrace n evs).getD i false =
      (((n + status1Count (evs.take i)) % 500 == 0) &&
        ((n + status1Count (evs.take i)) != 0)) := by
  induction evs generalizing n i with
  | nil => simp at h
  | cons e rest ih =>
    cases i with
    | zero => simp [snapTrace, status1Count]
    | succ j =>
      have hj : j < rest.length := by simpa using h
      simp only [snapTrace, List.getD_cons_succ, List.take_succ_cons,
        status1Count_cons]
      rw [ih _ j hj]
      by_cases hs : e.status == 1 <;> simp [hs, Nat.add_assoc, Nat.add_comm 1]

/-- C8 counterexample: in a workload of exactly 500 status-1 events
followed by two status-0 events, the count of status-1 events reaches the
positive multiple 500 exactly once, yet `exec_experiment` requests two
interim snapshots (one at each of the two trailing events, because the
guard `n % 500 == 0 and n` is evaluated at every event against the count
of previously processed status-1 events) — refuting "exactly once per
500 processed events whose status field equals 1". -/
theorem C8_counterexample :
    status1Count (List.replicate 500 ⟨1⟩ ++ [⟨0⟩, ⟨0⟩]) = 500 ∧
    snapCount (List.replicate 500 ⟨1⟩ ++ [⟨0⟩, ⟨0⟩]) = 2 := by
  constructor <;> decide

/-- C8 amended: during a run of `exec_experiment`, an interim results
snapshot is requested at exactly those events for which the number of
status-1 events among the strictly earlier events is a nonzero multiple
of 500 (so the 500th status-1 event does not itself trigger a snapshot,
and every subsequent event — status-1 or not — triggers one until the
running count leaves the multiple); the snapshot leaves the loop state
untouched (the trace has one entry per processed event and the counter
is a function of the workload prefix only). -/
theorem C8_snapshot_amended (events : List WEvent) (i : ℕ)
    (h : i < events.length) :
    (execSnaps events).getD i false =
      (((status1Count (events.take i)) % 500 == 0) &&
        ((status1Count (events.take i)) != 0)) ∧
    (execSnaps events).length = events.length := by
  constructor
  · simpa using snapTrace_getD events 0 i h
  · exact snapTrace_length 0 events

/-- Witness for C8: concrete application to the one-event workload
`[{status := 1}]` at position 0. -/
theorem C8_snapshot_amended_witness :
    (0 < ([⟨1⟩] : List WEvent).length) ∧
    ((execSnaps [⟨1⟩]).getD 0 false =
      (((status1Count (([⟨1⟩] : List WEvent).take 0)) % 500 == 0) &&
        ((status1Count (([⟨1⟩] : List WEvent).take 0)) != 0)) ∧
     (execSnaps [⟨1⟩]).length = ([⟨1⟩] : List WEvent).length) :=
  ⟨by decide, C8_snapshot_amended [⟨1⟩] 0 (by decide)⟩

/-! ## C7: `add_event` timestamp guard and heap order -/

theorem pyLt_fin (a b : ℚ) : pyLt (.fin a) (.fin b) = decide (a < b) := by
  simp [pyLt]

theorem isFinite_exists {t : PyFloat} (h : t.isFinite = true) :
    ∃ q, t = .fin q := by
  cases t <;> simp [PyFloat.isFinite] at h ⊢

theorem popMinGo_spec (l : List Event) :
    ∀ (best : Event) (pre : List Event),
    best.time.isFinite = true →
    (∀ x ∈ pre, x.time.isFinite = true) →
    (∀ x ∈ l, x.time.isFinite = true) →
    (∀ x ∈ pre, eventLt x best = false) →
    ∀ e rest, popMinGo best pre l = (e, rest) →
    ∀ e' ∈ rest, eventLt e' e = false := by
  induction l with
  | nil =>
    intro best pre hb hpre hl hmin e rest hgo e' he'
    simp only [popMinGo] at hgo
    cases hgo
    exact hmin e' (List.mem_reverse.mp he')
  | cons x xs ih =>
    intro best pre hb hpre hl hmin e rest hgo e' he'
    obtain ⟨qb, hqb⟩ := isFinite_exists hb
    obtain ⟨qx, hqx⟩ := isFinite_exists (hl x (List.mem_cons_self _ _))
    simp only [popMinGo] at hgo
    by_cases hcmp : eventLt x best = true
    · rw [if_pos hcmp] at hgo
      refine ih x (best :: pre) (by rw [hqx]; rfl)
        (fun y hy => ?_) (fun y hy => hl y (List.mem_cons_of_mem _ hy))
        (fun y hy => ?_) e rest hgo e' he'
      · rcases List.mem_cons.mp hy with rfl | hy
        · exact hb
        · exact hpre y hy
      · rcases List.mem_cons.mp hy with rfl | hy
        · unfold eventLt at hcmp ⊢
          rw [hqx, hqb] at hcmp
          rw [hqb, hqx]
          rw [pyLt_fin] at hcmp ⊢
          simp only [decide_eq_true_eq] at hcmp
          simp only [decide_eq_false_iff_not]
          linarith
        · obtain ⟨qy, hqy⟩ := isFinite_exists (hpre y hy)
          have hyb := hmin y hy
          unfold eventLt at hcmp hyb ⊢
          rw [hqx, hqb] at hcmp
          rw [hqy, hqb] at hyb
          rw [hqy, hqx]
          rw [pyLt_fin] at hcmp hyb ⊢
          simp only [decide_eq_true_eq] at hcmp
          simp only [decide_eq_false_iff_not] at hyb ⊢
          linarith
    · rw [if_neg hcmp] at hgo
      refine ih best (x :: pre) hb (fun y hy => ?_)
        (fun y hy => hl y (List.mem_cons_of_mem _ hy))
        (fun y hy => ?_) e rest hgo e' he'
      · rcases List.mem_cons.mp hy with rfl | hy
        · exact hl y (List.mem_cons_self _ _)
        · exact hpre y hy
      · rcases List.mem_cons.mp hy with rfl | hy
        · simpa using hcmp
        · exact hmin y hy

/-- C7 counterexample: `add_event` with timestamp `-inf` (and likewise
`NaN`) succeeds and enqueues the event, because the guard only tests
`time == float('inf')` — refuting "a non-finite timestamp (any of
+infinity, -infinity, NaN) causes an immediate error with no event
enqueued". -/
theorem C7_counterexample :
    addEvent [] PyFloat.ninf (.num 0) 0 [] (.num 0) 0 0 0 0 =
      .ok [⟨PyFloat.ninf, .num 0, 0, [], .num 0, 0, 0, 0, 0⟩] ∧
    addEvent [] PyFloat.nan (.num 0) 0 [] (.num 0) 0 0 0 0 =
      .ok [⟨PyFloat.nan, .num 0, 0, [], .num 0, 0, 0, 0, 0⟩] := by
  constructor <;> rfl

/-- C7 amended: `add_event` raises `ValueError` exactly when the
timestamp compares equal to `float('inf')` (so `-inf` and `NaN` are
accepted); any accepted timestamp pushes exactly one new event onto the
shared min-heap; and popping the heap of a queue of finite-timestamped
events yields an event no remaining event is strictly below, so
successive pops are non-decreasing in timestamp. -/
theorem C7_add_event_amended :
    (∀ q receiver service labels node flow deadline rtt status,
      addEvent q PyFloat.inf receiver service labels node flow deadline
          rtt status =
        .error "ValueError: Invalid argument in add_event(): time parameter is infinite") ∧
    (∀ q t receiver service labels node flow deadline rtt status,
      pyEq t PyFloat.inf = false →
      addEvent q t receiver service labels node flow deadline rtt status =
        .ok (q ++ [⟨t, receiver, service, labels, node, flow, deadline,
          rtt, status⟩])) ∧
    (∀ q e rest, (∀ x ∈ q, x.time.isFinite = true) →
      popMinEvent q = some (e, rest) →
      ∀ e' ∈ rest, eventLt e' e = false) := by
  refine ⟨fun _ _ _ _ _ _ _ _ _ => rfl, ?_, ?_⟩
  · intro q t receiver service labels node flow deadline rtt status ht
    simp [addEvent, ht, heappushEvent]
  · intro q e rest hfin hpop e' he'
    cases q with
    | nil => simp [popMinEvent] at hpop
    | cons x xs =>
      simp only [popMinEvent, Option.some.injEq] at hpop
      exact popMinGo_spec xs x [] (hfin x (List.mem_cons_self _ _))
        (by simp) (fun y hy => hfin y (List.mem_cons_of_mem _ hy))
        (by simp) e rest hpop e' he'

/-- Witness for C7: concrete application — rejecting `+inf`, accepting a
finite timestamp, and popping a concrete two-event queue. -/
theorem C7_add_event_amended_witness :
    (addEvent [] PyFloat.inf (.num 0) 0 [] (.num 0) 0 0 0 0 =
      .error "ValueError: Invalid argument in add_event(): time parameter is infinite") ∧
    (addEvent [] (PyFloat.fin 3) (.num 0) 0 [] (.num 0) 0 0 0 0 =
      .ok [⟨PyFloat.fin 3, .num 0, 0, [], .num 0, 0, 0, 0, 0⟩]) ∧
    (∀ e' ∈ [(⟨PyFloat.fin 5, .num 0, 0, [], .num 0, 0, 0, 0, 0⟩ : Event)],
      eventLt e' ⟨PyFloat.fin 2, .num 0, 0, [], .num 0, 0, 0, 0, 0⟩ = false) := by
  refine ⟨C7_add_event_amended.1 [] (.num 0) 0 [] (.num 0) 0 0 0 0, ?_, ?_⟩
  · exact C7_add_event_amended.2.1 [] (PyFloat.fin 3) (.num 0) 0 [] (.num 0)
      0 0 0 0 (by decide)
  · exact C7_add_event_amended.2.2
      [⟨PyFloat.fin 2, .num 0, 0, [], .num 0, 0, 0, 0, 0⟩,
       ⟨PyFloat.fin 5, .num 0, 0, [], .num 0, 0, 0, 0, 0⟩]
      ⟨PyFloat.fin 2, .num 0, 0, [], .num 0, 0, 0, 0, 0⟩
      [⟨PyFloat.fin 5, .num 0, 0, [], .num 0, 0, 0, 0, 0⟩]
      (by decide) (by decide)

/-! ## C9: local-cache partition conservation -/

theorem iround_split (C : ℕ) (r : ℚ) :
    iround ((C : ℚ) * (1 - r)) + iround ((C : ℚ) * r) = (C : ℤ) ∨
    iround ((C : ℚ) * (1 - r)) + iround ((C : ℚ) * r) = (C : ℤ) + 1 := by
  have key : iround ((C : ℚ) * (1 - r)) + iround ((C : ℚ) * r)
      = (C : ℤ) + 1 + ⌊(C : ℚ) * r + 1 / 2⌋ - ⌈(C : ℚ) * r + 1 / 2⌉ := by
    unfold iround
    have h1 : (C : ℚ) * (1 - r) + 1 / 2 =
        (1 - ((C : ℚ) * r + 1 / 2)) + ((C : ℤ) : ℚ) := by
      push_cast
      ring
    rw [h1, Int.floor_add_int]
    have h2 : (1 : ℚ) - ((C : ℚ) * r + 1 / 2) =
        -((C : ℚ) * r + 1 / 2) + ((1 : ℤ) : ℚ) := by
      push_cast
      ring
    rw [h2, Int.floor_add_int, Int.floor_neg]
    ring
  have hf := Int.floor_le_ceil ((C : ℚ) * r + 1 / 2)
  have hc := Int.ceil_le_floor_add_one ((C : ℚ) * r + 1 / 2)
  omega

theorem reserveFold_preserve (r : ℚ) (items : List (PNode × CacheInst))
    (st : List (PNode × CacheInst) × List (PNode × CacheInst)) (v : PNode)
    (hv : v ∉ keys items) :
    alookup (items.foldl (reserveStep r) st).1 v = alookup st.1 v ∧
    alookup (items.foldl (reserveStep r) st).2 v = alookup st.2 v := by
  induction items generalizing st with
  | nil => exact ⟨rfl, rfl⟩
  | cons p rest ih =>
    have hpv : p.1 ≠ v := by
      intro hc
      exact hv (by simp [keys, hc])
    have hv' : v ∉ keys rest := by
      intro hc
      exact hv (by simp [keys] at hc ⊢; exact Or.inr hc)
    simp only [List.foldl_cons]
    have hstep1 : alookup (reserveStep r st p).1 v = alookup st.1 v := by
      unfold reserveStep
      by_cases h : iround ((p.2.maxlen : ℚ) * (1 - r)) > 0
      · simp only [h, if_true]
        exact alookup_aset_ne _ _ _ _ hpv
      · simp only [h, if_false]
        exact alookup_adel_ne _ _ _ hpv
    have hstep2 : alookup (reserveStep r st p).2 v = alookup st.2 v := by
      unfold reserveStep
      by_cases h : iround ((p.2.maxlen : ℚ) * r) > 0
      · simp only [h, if_true]
        exact alookup_aset_ne _ _ _ _ hpv
      · simp only [h, if_false]
    obtain ⟨ih1, ih2⟩ := ih (reserveStep r st p) hv'
    exact ⟨ih1.trans hstep1, ih2.trans hstep2⟩

theorem reserveFold_spec (r : ℚ) (items : List (PNode × CacheInst))
    (st : List (PNode × CacheInst) × List (PNode × CacheInst))
    (hnd : (keys items).Nodup) (v : PNode) (c : CacheInst)
    (hmem : (v, c) ∈ items) (hloc : alookup st.2 v = none) :
    alookup (items.foldl (reserveStep r) st).1 v =
      (if 0 < iround ((c.maxlen : ℚ) * (1 - r)) then
        some ⟨(iround ((c.maxlen : ℚ) * (1 - r))).toNat, fun _ => false⟩
      else none) ∧
    alookup (items.foldl (reserveStep r) st).2 v =
      (if 0 < iround ((c.maxlen : ℚ) * r) then
        some ⟨(iround ((c.maxlen : ℚ) * r)).toNat, fun _ => false⟩
      else none) := by
  induction items generalizing st with
  | nil => simp at hmem
  | cons p rest ih =>
    simp only [keys, List.map_cons, List.nodup_cons] at hnd
    rcases List.mem_cons.mp hmem with h1 | h1
    · have hp : p = (v, c) := h1.symm
      subst hp
      have hvrest : v ∉ keys rest := hnd.1
      obtain ⟨hp1, hp2⟩ := reserveFold_preserve r rest
        (reserveStep r st (v, c)) v hvrest
      simp only [List.foldl_cons]
      rw [hp1, hp2]
      constructor
      · unfold reserveStep
        by_cases h : iround ((c.maxlen : ℚ) * (1 - r)) > 0
        · simp only [h, if_true]
          exact alookup_aset_self _ _ _
        · simp only [h, if_false]
          exact alookup_adel_self _ _
      · unfold reserveStep
        by_cases h : iround ((c.maxlen : ℚ) * r) > 0
        · simp only [h, if_true]
          exact alookup_aset_self _ _ _
        · simp only [h, if_false]
          exact hloc
    · have hpv : p.1 ≠ v := by
        intro hc
        apply hnd.1
        rw [hc]
        exact List.mem_map_of_mem Prod.fst h1
      simp only [List.foldl_cons]
      apply ih (reserveStep r st p) hnd.2 h1
      unfold reserveStep
      by_cases h : iround ((p.2.maxlen : ℚ) * r) > 0
      · simp only [h, if_true]
        rw [alookup_aset_ne _ _ _ _ hpv]
        exact hloc
      · simp only [h, if_false]
        exact hloc

/-- C9: `reserve_local_cache(ratio)` splits every existing cache of
capacity `C` into a coordinated cache of capacity `iround(C*(1-ratio))`
and a local cache of capacity `iround(C*ratio)`; these sum to `C` up to
rounding (exactly `C` or `C+1` with half-up rounding); a partition that
rounds to zero is absent from its map (the coordinated entry is popped,
the local entry is never created); a ratio outside `[0, 1]` raises
`ValueError`.  `iround` lives in `icarus/util.py` (not under `src/`) and
is modelled from the spec as round-to-nearest. -/
theorem C9_reserve_local_cache (m : NetworkModel) (r : ℚ)
    (hnd : (keys m.cache).Nodup) (hloc : m.local_cache = []) :
    (∀ v c, 0 ≤ r → r ≤ 1 → alookup m.cache v = some c →
      ∃ m', reserveLocalCache m r = .ok m' ∧
        (iround ((c.maxlen : ℚ) * (1 - r)) + iround ((c.maxlen : ℚ) * r) =
            (c.maxlen : ℤ) ∨
         iround ((c.maxlen : ℚ) * (1 - r)) + iround ((c.maxlen : ℚ) * r) =
            (c.maxlen : ℤ) + 1) ∧
        (alookup m'.cache v).map CacheInst.maxlen =
          (if 0 < iround ((c.maxlen : ℚ) * (1 - r)) then
            some (iround ((c.maxlen : ℚ) * (1 - r))).toNat
          else none) ∧
        (alookup m'.local_cache v).map CacheInst.maxlen =
          (if 0 < iround ((c.maxlen : ℚ) * r) then
            some (iround ((c.maxlen : ℚ) * r)).toNat
          else none)) ∧
    ((r < 0 ∨ 1 < r) →
      reserveLocalCache m r =
        .error "ValueError: ratio must be between 0 and 1") := by
  constructor
  · intro v c h0 h1 hlk
    have hcond : ¬(r < 0 ∨ r > 1) := by
      push_neg
      exact ⟨h0, h1⟩
    have hok : reserveLocalCache m r = .ok
        { m with
          cache := (m.cache.foldl (reserveStep r) (m.cache, m.local_cache)).1,
          local_cache :=
            (m.cache.foldl (reserveStep r) (m.cache, m.local_cache)).2 } := by
      simp [reserveLocalCache, hcond]
    have hmem := alookup_mem hlk
    have hloc0 : alookup m.local_cache v = none := by
      rw [hloc]
      rfl
    obtain ⟨hc1, hc2⟩ := reserveFold_spec r m.cache (m.cache, m.local_cache)
      hnd v c hmem hloc0
    refine ⟨_, hok, iround_split c.maxlen r, ?_, ?_⟩
    · show (alookup
        (m.cache.foldl (reserveStep r) (m.cache, m.local_cache)).1 v).map
          CacheInst.maxlen = _
      rw [hc1]
      by_cases h : 0 < iround ((c.maxlen : ℚ) * (1 - r)) <;> simp [h]
    · show (alookup
        (m.cache.foldl (reserveStep r) (m.cache, m.local_cache)).2 v).map
          CacheInst.maxlen = _
      rw [hc2]
      by_cases h : 0 < iround ((c.maxlen : ℚ) * r) <;> simp [h]
  · intro h
    simp [reserveLocalCache, h]

/-- Witness for C9: the concrete model with one cache of capacity 4 and
ratio 1/2 — coordinated and local capacities are both 2. -/
theorem C9_reserve_local_cache_witness :
    (0 : ℚ) ≤ 1 / 2 ∧ (1 / 2 : ℚ) ≤ 1 ∧
    ∃ m', reserveLocalCache mC9 (1 / 2) = .ok m' ∧
      (iround ((4 : ℚ) * (1 - 1 / 2)) + iround ((4 : ℚ) * (1 / 2)) =
          ((4 : ℕ) : ℤ) ∨
       iround ((4 : ℚ) * (1 - 1 / 2)) + iround ((4 : ℚ) * (1 / 2)) =
          ((4 : ℕ) : ℤ) + 1) ∧
      (alookup m'.cache (.num 0)).map CacheInst.maxlen =
        (if 0 < iround ((4 : ℚ) * (1 - 1 / 2)) then
          some (iround ((4 : ℚ) * (1 - 1 / 2))).toNat
        else none) ∧
      (alookup m'.local_cache (.num 0)).map CacheInst.maxlen =
        (if 0 < iround ((4 : ℚ) * (1 / 2)) then
          some (iround ((4 : ℚ) * (1 / 2))).toNat
        else none) := by
  refine ⟨by norm_num, by norm_num, ?_⟩
  exact (C9_reserve_local_cache mC9 (1 / 2) (by decide) rfl).1 (.num 0)
    ⟨4, fun _ => false⟩ (by norm_num) (by norm_num) rfl

/-! ## C3: shortest-path symmetry -/

theorem symInner_row_ne (u : PNode) (vs : List PNode)
    (f : PNode → PNode → List PNode) (a b : PNode) (ha : a ≠ u) :
    symInner u vs f a b = f a b := by
  induction vs generalizing f with
  | nil => rfl
  | cons v vs ih =>
    simp only [symInner]
    rw [ih]
    simp [spUpdate, ha]

theorem symInner_closed (u : PNode) (vs : List PNode) (hnd : vs.Nodup)
    (f : PNode → PNode → List PNode) (b : PNode) :
    symInner u vs f u b =
      if b ∈ vs then (f b u).reverse else f u b := by
  induction vs generalizing f with
  | nil => simp [symInner]
  | cons v vs ih =>
    obtain ⟨hv, hnd'⟩ := List.nodup_cons.mp hnd
    simp only [symInner]
    rw [ih hnd']
    by_cases hb : b ∈ vs
    · have hb' : b ∈ v :: vs := List.mem_cons_of_mem _ hb
      simp only [hb, if_true, hb', if_true]
      congr 1
      unfold spUpdate
      by_cases hcond : b = u ∧ u = v
      · exfalso
        obtain ⟨h1, h2⟩ := hcond
        apply hv
        rw [← h2, ← h1]
        exact hb
      · simp [hcond]
    · by_cases hbv : b = v
      · subst hbv
        have hb' : b ∈ b :: vs := List.mem_cons_self _ _
        simp only [hb, if_false, hb', if_true]
        unfold spUpdate
        simp
      · have hb' : b ∉ v :: vs := by
          simp [hbv, hb]
        simp only [hb, if_false, hb', if_false]
        unfold spUpdate
        simp [hbv]

theorem symOuter_row_ne (us vs : List PNode)
    (f : PNode → PNode → List PNode) (a b : PNode) (ha : a ∉ us) :
    symOuter us vs f a b = f a b := by
  induction us generalizing f with
  | nil => rfl
  | cons u us ih =>
    simp only [symOuter]
    have h1 : a ∉ us := fun hc => ha (List.mem_cons_of_mem _ hc)
    have h2 : a ≠ u := fun hc => ha (hc ▸ List.mem_cons_self _ _)
    rw [ih _ h1, symInner_row_ne _ _ _ _ _ h2]

theorem symOuter_closed (us vs : List PNode)
    (hvs : vs.Nodup) (hsub : ∀ x ∈ us, x ∈ vs) (b : PNode) (hb : b ∈ vs)
    (f : PNode → PNode → List PNode) (hnd : us.Nodup) (a : PNode)
    (ha : a ∈ us) :
    symOuter us vs f a b =
      if b ∈ us.takeWhile (fun x => decide (x ≠ a)) then f a b
      else (f b a).reverse := by
  induction us generalizing f with
  | nil => simp at ha
  | cons u us ih =>
    obtain ⟨hu, hnd'⟩ := List.nodup_cons.mp hnd
    simp only [symOuter]
    by_cases hau : a = u
    · subst hau
      have htw : (a :: us).takeWhile (fun x => decide (x ≠ a)) = [] := by
        simp [List.takeWhile]
      rw [htw]
      simp only [List.not_mem_nil, if_false]
      rw [symOuter_row_ne us vs _ a b hu]
      rw [symInner_closed a vs hvs f b]
      simp [hb]
    · have ha' : a ∈ us := by
        rcases List.mem_cons.mp ha with h | h
        · exact absurd h hau
        · exact h
      have hsub' : ∀ x ∈ us, x ∈ vs :=
        fun x hx => hsub x (List.mem_cons_of_mem _ hx)
      rw [ih hsub' _ hnd' ha']
      have hua : u ≠ a := fun hc => hau hc.symm
      have htw : (u :: us).takeWhile (fun x => decide (x ≠ a)) =
          u :: us.takeWhile (fun x => decide (x ≠ a)) := by
        simp [List.takeWhile, hua]
      rw [htw]
      by_cases hbtw : b ∈ us.takeWhile (fun x => decide (x ≠ a))
      · have hb' : b ∈ u :: us.takeWhile (fun x => decide (x ≠ a)) :=
          List.mem_cons_of_mem _ hbtw
        simp only [hbtw, if_true, hb', if_true]
        exact symInner_row_ne u vs f a b hau
      · by_cases hbu : b = u
        · subst hbu
          have hb' : b ∈ b :: us.takeWhile (fun x => decide (x ≠ a)) :=
            List.mem_cons_self _ _
          simp only [hbtw, if_false, hb', if_true]
          rw [symInner_closed b vs hvs f a]
          have hav : a ∈ vs := hsub a ha
          simp [hav]
        · have hb' : b ∉ u :: us.takeWhile (fun x => decide (x ≠ a)) := by
            intro hc
            rcases List.mem_cons.mp hc with h | h
            · exact hbu h
            · exact hbtw h
          simp only [hbtw, if_false, hb', if_false]
          rw [symInner_row_ne u vs f b a hbu]

theorem takeWhile_asymm (ks : List PNode) (hnd : ks.Nodup) (a b : PNode)
    (ha : a ∈ ks) (hb : b ∈ ks) (hne : a ≠ b) :
    (b ∈ ks.takeWhile (fun x => decide (x ≠ a))) ↔
      ¬(a ∈ ks.takeWhile (fun x => decide (x ≠ b))) := by
  induction ks with
  | nil => simp at ha
  | cons x ks ih =>
    obtain ⟨hx, hnd'⟩ := List.nodup_cons.mp hnd
    by_cases hxa : x = a
    · subst hxa
      have hxb : x ≠ b := hne
      simp [List.takeWhile, hxb]
    · by_cases hxb : x = b
      · subst hxb
        have : x ≠ a := fun hc => hxa hc
        simp [List.takeWhile, this]
      · have ha' : a ∈ ks := by
          rcases List.mem_cons.mp ha with h | h
          · exact absurd h.symm hxa
          · exact h
        have hb' : b ∈ ks := by
          rcases List.mem_cons.mp hb with h | h
          · exact absurd h.symm hxb
          · exact h
        have hbx : b ≠ x := fun hc => hxb hc.symm
        have hax : a ≠ x := fun hc => hxa hc.symm
        have htwa : (x :: ks).takeWhile (fun y => decide (y ≠ a)) =
            x :: ks.takeWhile (fun y => decide (y ≠ a)) := by
          simp [List.takeWhile, hxa]
        have htwb : (x :: ks).takeWhile (fun y => decide (y ≠ b)) =
            x :: ks.takeWhile (fun y => decide (y ≠ b)) := by
          simp [List.takeWhile, hxb]
        rw [htwa, htwb]
        constructor
        · intro hmem hc
          rcases List.mem_cons.mp hmem with h | h
          · exact hbx h
          · rcases List.mem_cons.mp hc with h2 | h2
            · exact hax h2
            · exact ((ih hnd' ha' hb').mp h) h2
        · intro hmem
          apply List.mem_cons_of_mem
          apply (ih hnd' ha' hb').mpr
          intro hc
          exact hmem (List.mem_cons_of_mem _ hc)

/-- Symmetry of `symmetrify_paths` output: given a Dijkstra result over
duplicate-free keys whose diagonal paths are the singletons `[u]`, the
symmetrized map satisfies `path(u, v) == reverse(path(v, u))` for all
key pairs. -/
theorem symmetrify_symm (sp : SPMap) (hnd : sp.ks.Nodup)
    (hdiag : ∀ u ∈ sp.ks, sp.f u u = [u]) (u v : PNode)
    (hu : u ∈ sp.ks) (hv : v ∈ sp.ks) :
    (symmetrify sp).f u v = ((symmetrify sp).f v u).reverse := by
  unfold symmetrify
  simp only
  by_cases huv : u = v
  · subst huv
    rw [symOuter_closed sp.ks sp.ks hnd (fun x h => h) u hu sp.f hnd u hu]
    have hnm : u ∉ sp.ks.takeWhile (fun x => decide (x ≠ u)) := by
      intro hmem
      have := List.mem_takeWhile_imp hmem
      simp at this
    rw [if_neg hnm, hdiag u hu]
    simp
  · rw [symOuter_closed sp.ks sp.ks hnd (fun x h => h) v hv sp.f hnd u hu,
        symOuter_closed sp.ks sp.ks hnd (fun x h => h) u hu sp.f hnd v hv]
    have hasym := takeWhile_asymm sp.ks hnd u v hu hv huv
    by_cases hb : v ∈ sp.ks.takeWhile (fun x => decide (x ≠ u))
    · rw [if_pos hb, if_neg (hasym.mp hb)]
      simp
    · rw [if_neg hb, if_pos (by
        by_contra hc
        exact hb (hasym.mpr hc))]

theorem removeLink_sp {m : NetworkModel} {u v : PNode} {fresh : SPMap}
    {m' : NetworkModel} (h : removeLink m u v true fresh = .ok m') :
    m'.shortest_path = symmetrify fresh := by
  unfold removeLink at h
  cases hl : edgeAttr m.topology u v with
  | none =>
    rw [hl] at h
    simp at h
  | some a =>
    rw [hl] at h
    simp only [Except.ok.injEq] at h
    rw [← h]
    rfl

theorem restoreLink_sp {m : NetworkModel} {u v : PNode} {fresh : SPMap}
    {m' : NetworkModel} (h : restoreLink m u v true fresh = .ok m') :
    m'.shortest_path = symmetrify fresh := by
  unfold restoreLink at h
  cases hl : alookup m.removed_links (u, v) with
  | none =>
    rw [hl] at h
    simp at h
  | some a =>
    rw [hl] at h
    simp only [Except.ok.injEq] at h
    rw [← h]
    rfl

theorem rewireLink_sp {m : NetworkModel} {u v up vp : PNode}
    {fresh : SPMap} {m' : NetworkModel}
    (h : rewireLink m u v up vp true fresh = .ok m') :
    m'.shortest_path = symmetrify fresh := by
  unfold rewireLink at h
  cases hl : edgeAttr m.topology u v with
  | none =>
    rw [hl] at h
    simp at h
  | some a =>
    rw [hl] at h
    simp only [Except.ok.injEq] at h
    rw [← h]
    rfl

theorem removeNode_sp {m : NetworkModel} {v : PNode} {fresh : SPMap}
    {m' : NetworkModel} (h : removeNode m v true fresh = .ok m') :
    m'.shortest_path = symmetrify fresh := by
  unfold removeNode at h
  cases hc : removeNodeCore m v with
  | error e =>
    rw [hc] at h
    simp [Except.map] at h
  | ok m2 =>
    rw [hc] at h
    simp only [Except.map, Except.ok.injEq] at h
    rw [← h]
    rfl

theorem restoreNode_sp {m : NetworkModel} {v : PNode} {fresh : SPMap}
    {m' : NetworkModel} (h : restoreNode m v true fresh = .ok m') :
    m'.shortest_path = symmetrify fresh := by
  unfold restoreNode at h
  cases hc : restoreNodeCore m v with
  | error e =>
    rw [hc] at h
    simp [Except.map] at h
  | ok m2 =>
    rw [hc] at h
    simp only [Except.map, Except.ok.injEq] at h
    rw [← h]
    rfl

/-- C3: `shortest_path(u, v)` equals the reverse of
`shortest_path(v, u)` for all key pairs of the (symmetrized) all-pairs
map — both for a freshly symmetrized Dijkstra result (as installed at
construction) and after each of the five topology mutations that
recompute shortest paths with `recompute_paths=True`
(`remove_link`, `restore_link`, `rewire_link`, `remove_node`,
`restore_node` all install `symmetrify_paths(nx.all_pairs_dijkstra_path(...))`).
The Dijkstra result is an arbitrary map over duplicate-free keys with
singleton diagonal paths. -/
theorem C3_shortest_path_symmetry (fresh : SPMap) (hnd : fresh.ks.Nodup)
    (hdiag : ∀ u ∈ fresh.ks, fresh.f u u = [u]) (u v : PNode)
    (hu : u ∈ fresh.ks) (hv : v ∈ fresh.ks) :
    ((symmetrify fresh).f u v = ((symmetrify fresh).f v u).reverse) ∧
    (∀ m a b m', removeLink m a b true fresh = .ok m' →
      m'.shortest_path.f u v = (m'.shortest_path.f v u).reverse) ∧
    (∀ m a b m', restoreLink m a b true fresh = .ok m' →
      m'.shortest_path.f u v = (m'.shortest_path.f v u).reverse) ∧
    (∀ m a b a' b' m', rewireLink m a b a' b' true fresh = .ok m' →
      m'.shortest_path.f u v = (m'.shortest_path.f v u).reverse) ∧
    (∀ m a m', removeNode m a true fresh = .ok m' →
      m'.shortest_path.f u v = (m'.shortest_path.f v u).reverse) ∧
    (∀ m a m', restoreNode m a true fresh = .ok m' →
      m'.shortest_path.f u v = (m'.shortest_path.f v u).reverse) := by
  have core := symmetrify_symm fresh hnd hdiag u v hu hv
  refine ⟨core, ?_, ?_, ?_, ?_, ?_⟩
  · intro m a b m' h
    rw [removeLink_sp h]
    exact core
  · intro m a b m' h
    rw [restoreLink_sp h]
    exact core
  · intro m a b a' b' m' h
    rw [rewireLink_sp h]
    exact core
  · intro m a m' h
    rw [removeNode_sp h]
    exact core
  · intro m a m' h
    rw [restoreNode_sp h]
    exact core

/-- Witness for C3: the concrete two-node Dijkstra result `spC3`. -/
theorem C3_shortest_path_symmetry_witness :
    ((symmetrify spC3).f (.num 0) (.num 1) =
      ((symmetrify spC3).f (.num 1) (.num 0)).reverse) ∧
    (∀ m a b m', removeLink m a b true spC3 = .ok m' →
      m'.shortest_path.f (.num 0) (.num 1) =
        (m'.shortest_path.f (.num 1) (.num 0)).reverse) ∧
    (∀ m a b m', restoreLink m a b true spC3 = .ok m' →
      m'.shortest_path.f (.num 0) (.num 1) =
        (m'.shortest_path.f (.num 1) (.num 0)).reverse) ∧
    (∀ m a b a' b' m', rewireLink m a b a' b' true spC3 = .ok m' →
      m'.shortest_path.f (.num 0) (.num 1) =
        (m'.shortest_path.f (.num 1) (.num 0)).reverse) ∧
    (∀ m a m', removeNode m a true spC3 = .ok m' →
      m'.shortest_path.f (.num 0) (.num 1) =
        (m'.shortest_path.f (.num 1) (.num 0)).reverse) ∧
    (∀ m a m', restoreNode m a true spC3 = .ok m' →
      m'.shortest_path.f (.num 0) (.num 1) =
        (m'.shortest_path.f (.num 1) (.num 0)).reverse) :=
  C3_shortest_path_symmetry spC3 (by decide) (by decide) (.num 0) (.num 1)
    (by decide) (by decide)

/-! ## C4 and C10: the `labels_sources` conjunctive filter -/

theorem lsUnion_keys (m : NetworkModel) (labels : List String) :
    ∀ (acc u : Counter PNode), lsUnion m labels acc = .ok u → ∀ a,
    (a ∈ keys u ↔ a ∈ keys acc ∨
      ∃ l ∈ labels, ∃ cnt, alookup m.labels_sources l = some cnt ∧
        a ∈ keys cnt) := by
  induction labels with
  | nil =>
    intro acc u h a
    simp only [lsUnion, Except.ok.injEq] at h
    subst h
    simp
  | cons l ls ih =>
    intro acc u h a
    simp only [lsUnion] at h
    cases hl : alookup m.labels_sources l with
    | none =>
      rw [hl] at h
      simp at h
    | some cnt =>
      rw [hl] at h
      rw [ih _ _ h a, mem_keys_cUpdate]
      constructor
      · rintro ((h1 | h1) | ⟨l', hl', cnt', hc', ha'⟩)
        · exact Or.inl h1
        · exact Or.inr ⟨l, List.mem_cons_self _ _, cnt, hl, h1⟩
        · exact Or.inr ⟨l', List.mem_cons_of_mem _ hl', cnt', hc', ha'⟩
      · rintro (h1 | ⟨l', hl', cnt', hc', ha'⟩)
        · exact Or.inl (Or.inl h1)
        · rcases List.mem_cons.mp hl' with rfl | hl''
          · rw [hl] at hc'
            injection hc' with hc'
            subst hc'
            exact Or.inl (Or.inr ha')
          · exact Or.inr ⟨l', hl'', cnt', hc', ha'⟩

theorem labelsSourcesPass_fst (m : NetworkModel) (labels : List String) :
    ∀ (valid : List PNode) (p : Counter PNode × List PNode) (a : PNode),
    (a ∈ keys (labelsSourcesPass m labels valid p).1 ↔
      a ∈ keys p.1 ∧ ¬(srcStr a = true ∧ a ∈ valid)) := by
  intro valid
  induction valid with
  | nil =>
    intro p a
    simp [labelsSourcesPass]
  | cons n rest ih =>
    intro p a
    simp only [labelsSourcesPass]
    rw [ih]
    by_cases hsrc : srcStr n
    · simp only [hsrc, if_true, mem_keys_cDel]
      constructor
      · rintro ⟨⟨h1, h2⟩, h3⟩
        refine ⟨h1, ?_⟩
        rintro ⟨hs, hmem⟩
        rcases List.mem_cons.mp hmem with rfl | hmem
        · exact h2 rfl
        · exact h3 ⟨hs, hmem⟩
      · rintro ⟨h1, h2⟩
        refine ⟨⟨h1, ?_⟩, ?_⟩
        · rintro rfl
          exact h2 ⟨hsrc, List.mem_cons_self _ _⟩
        · rintro ⟨hs, hmem⟩
          exact h2 ⟨hs, List.mem_cons_of_mem _ hmem⟩
    · simp only [hsrc, if_false]
      constructor
      · rintro ⟨h1, h2⟩
        refine ⟨h1, ?_⟩
        rintro ⟨hs, hmem⟩
        rcases List.mem_cons.mp hmem with rfl | hmem
        · rw [hs] at hsrc
          exact hsrc rfl
        · exact h2 ⟨hs, hmem⟩
      · rintro ⟨h1, h2⟩
        refine ⟨h1, ?_⟩
        rintro ⟨hs, hmem⟩
        exact h2 ⟨hs, List.mem_cons_of_mem _ hmem⟩

theorem labelsSourcesPass_snd (m : NetworkModel) (labels : List String) :
    ∀ (valid : List PNode) (p : Counter PNode × List PNode) (a : PNode),
    (a ∈ (labelsSourcesPass m labels valid p).2 ↔
      a ∈ p.2 ∨ (a ∈ valid ∧ failsLabels m labels a = true)) := by
  intro valid
  induction valid with
  | nil =>
    intro p a
    simp [labelsSourcesPass]
  | cons n rest ih =>
    intro p a
    simp only [labelsSourcesPass]
    rw [ih]
    by_cases hf : failsLabels m labels n
    · simp only [hf, if_true]
      constructor
      · rintro (h1 | ⟨h1, h2⟩)
        · rcases List.mem_append.mp h1 with h3 | h3
          · exact Or.inl h3
          · simp only [List.mem_singleton] at h3
            subst h3
            exact Or.inr ⟨List.mem_cons_self _ _, hf⟩
        · exact Or.inr ⟨List.mem_cons_of_mem _ h1, h2⟩
      · rintro (h1 | ⟨h1, h2⟩)
        · exact Or.inl (List.mem_append.mpr (Or.inl h1))
        · rcases List.mem_cons.mp h1 with rfl | h3
          · exact Or.inl (List.mem_append.mpr (Or.inr (by simp)))
          · exact Or.inr ⟨h3, h2⟩
    · simp only [hf, if_false]
      constructor
      · rintro (h1 | ⟨h1, h2⟩)
        · exact Or.inl h1
        · exact Or.inr ⟨List.mem_cons_of_mem _ h1, h2⟩
      · rintro (h1 | ⟨h1, h2⟩)
        · exact Or.inl h1
        · rcases List.mem_cons.mp h1 with rfl | h3
          · rw [h2] at hf
            exact absurd rfl hf
          · exact Or.inr ⟨h3, h2⟩

theorem labelsSourcesFn_mem_iff (m : NetworkModel) (labels : List String)
    (c : Counter PNode) (h : labelsSourcesFn m labels = .ok c)
    (n : PNode) :
    n ∈ keys c ↔ ∃ u, lsUnion m labels ([] : Counter PNode) = .ok u ∧
      n ∈ keys u ∧ srcStr n = false ∧ failsLabels m labels n = false := by
  unfold labelsSourcesFn at h
  cases hu : lsUnion m labels ([] : Counter PNode) with
  | error e =>
    rw [hu] at h
    simp at h
  | ok u =>
    rw [hu] at h
    simp only [Except.pure, Except.bind, Except.ok.injEq, bind, pure] at h
    subst h
    rw [mem_keys_foldl_cDel, labelsSourcesPass_fst, labelsSourcesPass_snd]
    constructor
    · rintro ⟨⟨h1, h2⟩, h3⟩
      refine ⟨u, rfl, h1, ?_, ?_⟩
      · by_contra hs
        exact h2 ⟨by simpa using hs, h1⟩
      · by_contra hf
        exact h3 (Or.inr ⟨h1, by simpa using hf⟩)
    · rintro ⟨u', hu', h1, h2, h3⟩
      injection hu' with hu'
      subst hu'
      refine ⟨⟨h1, ?_⟩, ?_⟩
      · rintro ⟨hs, _⟩
        rw [h2] at hs
        cases hs
      · rintro (hmem | ⟨_, hf⟩)
        · cases hmem
        · rw [h3] at hf
          cases hf

/-- C10: the multiset returned by `labels_sources` never contains a
string node identifier containing the substring `"src"`: the first pass
unconditionally deletes every such key from the result, even when the
node carries every requested label. -/
theorem C10_labels_sources_drops_src (m : NetworkModel)
    (labels : List String) (c : Counter PNode)
    (h : labelsSourcesFn m labels = .ok c) (n : PNode) (hn : n ∈ keys c) :
    srcStr n = false :=
  ((labelsSourcesFn_mem_iff m labels c h n).mp hn).choose_spec.2.2.1

/-- Witness for C10: in the concrete model `mC10`, the node `"n_src"`
carries the requested label yet the result contains only the integer
node 1, to which the theorem applies. -/
theorem C10_labels_sources_drops_src_witness :
    ∃ c, labelsSourcesFn mC10 ["a"] = .ok c ∧ (.num 1) ∈ keys c ∧
      srcStr (.num 1) = false := by
  refine ⟨[(.num 1, 1)], by rfl, by decide, ?_⟩
  exact C10_labels_sources_drops_src mC10 ["a"] [(.num 1, 1)] (by rfl)
    (.num 1) (by decide)

/-- C4: `labels_sources` is a conjunctive filter.  Under the
construction invariant that every node listed in a `labels_sources`
counter has a `node_labels` entry (network.py:1180-1188, 1220-1229), a
node is in the returned multiset only if its label counter carries every
requested label; conversely a non-`"src"` node appearing in a requested
label's counter that carries every requested label is included. -/
theorem C4_labels_sources_conjunctive (m : NetworkModel)
    (labels : List String) (c : Counter PNode)
    (hinv : ∀ p ∈ m.labels_sources, ∀ q ∈ p.2,
      (alookup m.node_labels q.1).isSome)
    (h : labelsSourcesFn m labels = .ok c) :
    (∀ n ∈ keys c, ∀ l ∈ labels,
      ∃ cnt, alookup m.node_labels n = some cnt ∧ l ∈ keys cnt) ∧
    (∀ n, srcStr n = false →
      (∃ l₀ ∈ labels, ∃ cnt₀, alookup m.labels_sources l₀ = some cnt₀ ∧
        n ∈ keys cnt₀) →
      (∀ l ∈ labels, ∃ cnt, alookup m.node_labels n = some cnt ∧
        l ∈ keys cnt) →
      n ∈ keys c) := by
  constructor
  · intro n hn l hl
    obtain ⟨u, hu, hnu, hsrc, hfail⟩ :=
      (labelsSourcesFn_mem_iff m labels c h n).mp hn
    obtain ⟨l₀, hl₀, cnt₀, hc₀, hn₀⟩ :=
      ((lsUnion_keys m labels [] u hu n).mp hnu).resolve_left
        (by simp [keys])
    obtain ⟨b, hb⟩ := (mem_keys_iff cnt₀ n).mp hn₀
    have hsome := hinv (l₀, cnt₀) (alookup_mem hc₀) (n, b) hb
    cases hcnt : alookup m.node_labels n with
    | none =>
      rw [hcnt] at hsome
      cases hsome
    | some cnt =>
      unfold failsLabels at hfail
      rw [hcnt] at hfail
      have hall : ∀ l' ∈ labels, l' ∈ keys cnt := by
        simpa [List.all_eq_true] using hfail
      exact ⟨cnt, rfl, hall l hl⟩
  · intro n hsrc ⟨l₀, hl₀, cnt₀, hc₀, hn₀⟩ hcarry
    apply (labelsSourcesFn_mem_iff m labels c h n).mpr
    unfold labelsSourcesFn at h
    cases hu : lsUnion m labels ([] : Counter PNode) with
    | error e =>
      rw [hu] at h
      simp at h
    | ok u =>
      refine ⟨u, rfl, ?_, hsrc, ?_⟩
      · exact (lsUnion_keys m labels [] u hu n).mpr
          (Or.inr ⟨l₀, hl₀, cnt₀, hc₀, hn₀⟩)
      · unfold failsLabels
        cases hcnt : alookup m.node_labels n with
        | none => rfl
        | some cnt =>
          have hall : labels.all (fun l => decide (l ∈ keys cnt)) = true := by
            apply List.all_eq_true.mpr
            intro l hl
            obtain ⟨cnt', hcnt', hlcnt⟩ := hcarry l hl
            rw [hcnt] at hcnt'
            injection hcnt' with hcnt'
            subst hcnt'
            simpa using hlcnt
          simp [hall]

/-- Witness for C4: the label-conjunction scenario — node 2 (labels
`{"sports", "news"}`) is included in
`labels_sources(["sports", "news"])` while node 1 (label `{"sports"}`
only) cannot be, since it fails the carries-every-label conclusion. -/
theorem C4_labels_sources_conjunctive_witness :
    ((∀ n ∈ keys [(PNode.num 2, (2 : ℤ))], ∀ l ∈ ["sports", "news"],
      ∃ cnt, alookup mC4.node_labels n = some cnt ∧ l ∈ keys cnt) ∧
     (∀ n, srcStr n = false →
      (∃ l₀ ∈ ["sports", "news"], ∃ cnt₀,
        alookup mC4.labels_sources l₀ = some cnt₀ ∧ n ∈ keys cnt₀) →
      (∀ l ∈ ["sports", "news"], ∃ cnt,
        alookup mC4.node_labels n = some cnt ∧ l ∈ keys cnt) →
      n ∈ keys [(PNode.num 2, (2 : ℤ))])) ∧
    (.num 2) ∈ keys [(PNode.num 2, (2 : ℤ))] := by
  constructor
  · exact C4_labels_sources_conjunctive mC4 ["sports", "news"]
      [(PNode.num 2, (2 : ℤ))] (by decide) (by rfl)
  · decide

/-! ## C5: comparator semantics of the composite ranking queries -/

/-- C5 counterexample: in the concrete model `mC5`, storage nodes 1 and 2
both match label `"a"` with processed messages at the same hop distance,
node 1 first in iteration order; yet `service_labels_closest_repo`
returns node 2 — the later candidate of equal distance overrides the
first minimal one, because `current_hops` is initialised to
`float('inf')` and never updated, so the strict `<` test always passes.
This refutes "the first minimal candidate wins and is never overridden
by a later candidate of equal distance". -/
theorem C5_counterexample :
    serviceLabelsClosestRepo mC5 ["a"] (.num 0) [] false =
      .ok (false, some (.num 2)) ∧
    (mC5.shortest_path.f (.num 0) (.num 1)).length =
      (mC5.shortest_path.f (.num 0) (.num 2)).length ∧
    PNode.num 1 ≠ PNode.num 2 := by
  refine ⟨rfl, rfl, by decide⟩

theorem mainSourceScan_chain (rs : List (PNode × RepoInst)) (cnt : ℤ)
    (suffix : List (PNode × ℤ)) (K : ℤ × Option AuthRes)
    (hsuffix : ∀ cur auth, 0 ≤ cur → cur ≤ cnt →
      mainSourceScan rs suffix cur auth = .ok K) :
    ∀ (l : List (PNode × ℤ)) cur auth, 0 ≤ cur → cur ≤ cnt →
    (∀ p ∈ l, p.2 ≤ cnt) →
    (∀ p ∈ l, srcStr p.1 = true ∨ (alookup rs p.1).isSome = true) →
    mainSourceScan rs (l ++ suffix) cur auth = .ok K := by
  intro l
  induction l with
  | nil =>
    intro cur auth h0 hcnt _ _
    exact hsuffix cur auth h0 hcnt
  | cons p rest ih =>
    intro cur auth h0 hcnt hle hsafe
    obtain ⟨k, v⟩ := p
    simp only [List.cons_append, mainSourceScan]
    by_cases hge : v ≥ cur
    · rw [if_pos hge]
      by_cases hsrc : srcStr k
      · rw [if_pos hsrc]
        exact ih cur (some (.node k)) h0 hcnt
          (fun q hq => hle q (List.mem_cons_of_mem _ hq))
          (fun q hq => hsafe q (List.mem_cons_of_mem _ hq))
      · rw [if_neg hsrc]
        rcases hsafe (k, v) (List.mem_cons_self _ _) with hs | hs
        · exact absurd hs (by simpa using hsrc)
        · obtain ⟨r, hr⟩ := Option.isSome_iff_exists.mp hs
          rw [hr]
          exact ih v (some (.repo r)) (le_trans h0 hge)
            (hle (k, v) (List.mem_cons_self _ _))
            (fun q hq => hle q (List.mem_cons_of_mem _ hq))
            (fun q hq => hsafe q (List.mem_cons_of_mem _ hq))
    · rw [if_neg hge]
      exact ih cur auth h0 hcnt
        (fun q hq => hle q (List.mem_cons_of_mem _ hq))
        (fun q hq => hsafe q (List.mem_cons_of_mem _ hq))

theorem mostRequestsScan_chain (m : NetworkModel) (cnt : ℤ)
    (suffix : List (PNode × ℤ)) (K : ℤ × Option RepoInst)
    (hsuffix : ∀ cur auth, 0 ≤ cur → cur ≤ cnt →
      mostRequestsScan m suffix cur auth = .ok K) :
    ∀ (l : List (PNode × ℤ)) cur auth, 0 ≤ cur → cur ≤ cnt →
    (∀ p ∈ l, p.2 ≤ cnt) →
    mostRequestsScan m (l ++ suffix) cur auth = .ok K := by
  intro l
  induction l with
  | nil =>
    intro cur auth h0 hcnt _
    exact hsuffix cur auth h0 hcnt
  | cons p rest ih =>
    intro cur auth h0 hcnt hle
    obtain ⟨k, v⟩ := p
    simp only [List.cons_append, mostRequestsScan]
    by_cases hcond : v ≥ cur ∧ hasStorageCapability m k = true
    · rw [if_pos (by simp [hcond.1, hcond.2])]
      have hs : (alookup m.repoStorage k).isSome := by
        have := hcond.2
        unfold hasStorageCapability at this
        cases hk : alookup m.repoStorage k with
        | none => rw [hk] at this; cases this
        | some r => simp
      obtain ⟨r, hr⟩ := Option.isSome_iff_exists.mp hs
      rw [hr]
      exact ih v (some r) (le_trans h0 hcond.1)
        (hle (k, v) (List.mem_cons_self _ _))
        (fun q hq => hle q (List.mem_cons_of_mem _ hq))
    · rw [if_neg (by
        intro hc
        simp only [Bool.and_eq_true, decide_eq_true_eq] at hc
        exact hcond ⟨hc.1, hc.2⟩)]
      exact ih cur auth h0 hcnt
        (fun q hq => hle q (List.mem_cons_of_mem _ hq))

theorem closestRepoScan_last_wins (l : List (PNode × ℤ)) (n : PNode)
    (h : ℤ) (hs : srcStr n = false) :
    ∀ inp auth, closestRepoScan [] false (l ++ [(n, h)]) .inf inp auth =
      (false, some n) := by
  induction l with
  | nil =>
    intro inp auth
    simp [closestRepoScan, hs, pyLt]
  | cons p rest ih =>
    intro inp auth
    obtain ⟨k, hk⟩ := p
    simp only [List.cons_append, closestRepoScan]
    by_cases hsrc : srcStr k
    · rw [if_pos hsrc]
      exact ih inp auth
    · rw [if_neg hsrc]
      simp only [Bool.false_eq_true, if_false, List.not_mem_nil,
        decide_False, Bool.false_and, pyLt]
      exact ih false (some k)

/-- C5 amended: the "most popular source" selections
(`all_labels_main_source` and the popularity test in
`all_labels_most_requests`) use the non-strict `>=` test, so a later
candidate whose count equals the running maximum overrides the earlier
one; in `service_labels_closest_repo` the strict `<` test compares
against `current_hops = float('inf')` which the loop never updates, so
every non-`"src"` candidate passes the test and the last candidate in
iteration order wins — in particular a later candidate of equal hop
distance does override an earlier minimal one (rather than the first
minimal candidate winning, as the claim stated). -/
theorem C5_comparator_semantics :
    (∀ (rs : List (PNode × RepoInst)) (l : List (PNode × ℤ))
      (n₁ n₂ : PNode) (cnt : ℤ) (r₁ r₂ : RepoInst), 0 ≤ cnt →
      (∀ p ∈ l, p.2 ≤ cnt) →
      (∀ p ∈ l, srcStr p.1 = true ∨ (alookup rs p.1).isSome = true) →
      srcStr n₁ = false → srcStr n₂ = false →
      alookup rs n₁ = some r₁ → alookup rs n₂ = some r₂ →
      mainSourceScan rs (l ++ [(n₁, cnt), (n₂, cnt)]) 0 none =
        .ok (cnt, some (.repo r₂))) ∧
    (∀ (m : NetworkModel) (l : List (PNode × ℤ)) (n₁ n₂ : PNode)
      (cnt : ℤ) (r₂ : RepoInst), 0 ≤ cnt → (∀ p ∈ l, p.2 ≤ cnt) →
      hasStorageCapability m n₁ = true →
      hasStorageCapability m n₂ = true →
      alookup m.repoStorage n₂ = some r₂ →
      mostRequestsScan m (l ++ [(n₁, cnt), (n₂, cnt)]) 0 none =
        .ok (cnt, some r₂)) ∧
    (∀ (l : List (PNode × ℤ)) (n : PNode) (h : ℤ) inp auth,
      srcStr n = false →
      closestRepoScan [] false (l ++ [(n, h)]) .inf inp auth =
        (false, some n)) := by
  refine ⟨?_, ?_, ?_⟩
  · intro rs l n₁ n₂ cnt r₁ r₂ h0 hle hsafe hs₁ hs₂ hr₁ hr₂
    apply mainSourceScan_chain rs cnt [(n₁, cnt), (n₂, cnt)]
      (cnt, some (.repo r₂)) ?_ l 0 none le_rfl h0 hle hsafe
    intro cur auth hcur0 hcurle
    simp only [mainSourceScan]
    rw [if_pos hcurle, if_neg (by simp [hs₁]), hr₁]
    simp [hs₂, hr₂]
  · intro m l n₁ n₂ cnt r₂ h0 hle hcap₁ hcap₂ hr₂
    apply mostRequestsScan_chain m cnt [(n₁, cnt), (n₂, cnt)]
      (cnt, some r₂) ?_ l 0 none le_rfl h0 hle
    intro cur auth hcur0 hcurle
    have hs₁ : (alookup m.repoStorage n₁).isSome := by
      unfold hasStorageCapability at hcap₁
      cases hk : alookup m.repoStorage n₁ with
      | none => rw [hk] at hcap₁; cases hcap₁
      | some r => simp
    obtain ⟨r₁, hr₁⟩ := Option.isSome_iff_exists.mp hs₁
    simp only [mostRequestsScan]
    rw [if_pos (by simp [hcurle, hcap₁]), hr₁]
    simp [hcap₂, hr₂]
  · intro l n h inp auth hs
    exact closestRepoScan_last_wins l n h hs inp auth

/-- Witness for C5: concrete application of all three comparator facts
on the two-repository model `mW5` and a two-candidate list. -/
theorem C5_comparator_semantics_witness :
    mainSourceScan mW5.repoStorage [(.num 11, 3), (.num 12, 3)] 0 none =
      .ok (3, some (.repo repoW2)) ∧
    mostRequestsScan mW5 [(.num 11, 3), (.num 12, 3)] 0 none =
      .ok (3, some repoW2) ∧
    closestRepoScan [] false [(.num 5, 4), (.num 6, 4)] .inf false none =
      (false, some (.num 6)) := by
  refine ⟨?_, ?_, ?_⟩
  · exact C5_comparator_semantics.1 mW5.repoStorage [] (.num 11) (.num 12)
      3 repoW1 repoW2 (by norm_num) (by simp) (by simp) (by decide)
      (by decide) (by rfl) (by rfl)
  · exact C5_comparator_semantics.2.1 mW5 [] (.num 11) (.num 12) 3 repoW2
      (by norm_num) (by simp) (by rfl) (by rfl) (by rfl)
  · exact C5_comparator_semantics.2.2 [(.num 5, 4)] (.num 6) 4 false none
      (by decide)

/-! ## C1: `get_content` delegation and origin fallback -/

/-- C1 counterexample: node 2 has a cache whose policy misses content 7,
and node 2 is also an origin (`'source'` stack); `get_content` returns
`False` with a cache-miss report and never consults the origin status —
refuting "on a cache miss ... it falls back to checking whether the node
is an origin source, an origin node always yields a hit". -/
theorem C1_counterexample :
    getContent ctrlC1 (.num 2) 7 = .ok (false, [Rpt.cacheMiss (.num 2)]) ∧
    alookup ctrlC1.model.stack (.num 2) = some "source" :=
  ⟨rfl, rfl⟩

/-- C1 amended: `get_content` delegates to the node's cache instance
when one exists and returns the cache outcome directly, reporting hit or
miss through unguarded collector calls — a miss does **not** fall back
to the origin check; only a node lacking a cache reaches the origin
check, where a `'source'` stack yields `True`: unreported when no sink
is attached, with a server-hit report when a sink is attached and the
session table holds an entry under the literal key `'log'`, and a
`KeyError` when a sink is attached but no such entry exists; a
cache-less non-origin node yields `False`. -/
theorem C1_get_content_amended :
    (∀ st (node : PNode) (content : ℤ) inst,
      alookup st.model.cache node = some inst → st.collector = true →
      getContent st node content = .ok (inst.getF content,
        [if inst.getF content then Rpt.cacheHit node
         else Rpt.cacheMiss node])) ∧
    (∀ st (node : PNode) (content : ℤ),
      alookup st.model.cache node = none →
      alookup st.model.stack node = some "source" → st.collector = false →
      getContent st node content = .ok (true, [])) ∧
    (∀ st (node : PNode) (content : ℤ) s,
      alookup st.model.cache node = none →
      alookup st.model.stack node = some "source" → st.collector = true →
      alookup st.session (PNode.str "log") = some s →
      getContent st node content = .ok (true, [Rpt.serverHit node])) ∧
    (∀ st (node : PNode) (content : ℤ),
      alookup st.model.cache node = none →
      alookup st.model.stack node = some "source" → st.collector = true →
      alookup st.session (PNode.str "log") = none →
      getContent st node content = .error "KeyError: 'log'") ∧
    (∀ st (node : PNode) (content : ℤ) name,
      alookup st.model.cache node = none →
      alookup st.model.stack node = some name → name ≠ "source" →
      getContent st node content = .ok (false, [])) := by
  refine ⟨?_, ?_, ?_, ?_, ?_⟩
  · intro st node content inst hc hcol
    unfold getContent
    rw [hc, hcol]
    simp
  · intro st node content hc hst hcol
    unfold getContent
    rw [hc, hst, hcol]
    simp
  · intro st node content s hc hst hcol hlog
    unfold getContent
    rw [hc, hst, hcol, hlog]
    simp
  · intro st node content hc hst hcol hlog
    unfold getContent
    rw [hc, hst, hcol, hlog]
    simp
  · intro st node content name hc hst hname
    unfold getContent
    rw [hc, hst]
    simp [hname]

/-- Witness for C1: concrete application of the amended behavior on the
states `ctrlC1` (cached origin, miss), `ctrlC1noc` (cache-less origin,
no sink), `ctrlC1log` (cache-less origin, sink and `'log'` entry),
`ctrlC1nolog` (cache-less origin, sink, no `'log'` entry) and the
cache-less router node 4. -/
theorem C1_get_content_amended_witness :
    getContent ctrlC1 (.num 2) 7 = .ok (false, [Rpt.cacheMiss (.num 2)]) ∧
    getContent ctrlC1noc (.num 3) 7 = .ok (true, []) ∧
    getContent ctrlC1log (.num 3) 7 = .ok (true, [Rpt.serverHit (.num 3)]) ∧
    getContent ctrlC1nolog (.num 3) 7 = .error "KeyError: 'log'" ∧
    getContent ctrlC1log (.num 4) 7 = .ok (false, []) := by
  refine ⟨?_, ?_, ?_, ?_, ?_⟩
  · have := C1_get_content_amended.1 ctrlC1 (.num 2) 7
      ⟨10, fun _ => false⟩ (by rfl) (by rfl)
    simpa using this
  · exact C1_get_content_amended.2.1 ctrlC1noc (.num 3) 7 (by rfl) (by rfl)
      (by rfl)
  · exact C1_get_content_amended.2.2.1 ctrlC1log (.num 3) 7 sessD (by rfl)
      (by rfl) (by rfl) (by rfl)
  · exact C1_get_content_amended.2.2.2.1 ctrlC1nolog (.num 3) 7 (by rfl)
      (by rfl) (by rfl) (by rfl)
  · exact C1_get_content_amended.2.2.2.2 ctrlC1log (.num 4) 7 "router"
      (by rfl) (by rfl) (by decide)

/-! ## C6: session operations with and without an attached sink -/

/-- C6 counterexample: with no collector attached, `start_session` and
`end_session` fail (`AttributeError` from calling a method on `None` —
the `if self.collector is not None` guards are commented out in the
source) instead of silently skipping the report. -/
theorem C6_counterexample :
    startSession ctrlC6 0 (.num 0) 7 [] true (.num 1) 0 =
      .error "AttributeError: 'NoneType' object has no attribute 'start_session'" ∧
    endSession ctrlC6 true 0 (.num 1) =
      .error "AttributeError: 'NoneType' object has no attribute 'end_session'" :=
  ⟨rfl, rfl⟩

/-- C6 amended: `start_session` and `end_session` forward their
notification to the collector unconditionally: with no collector
attached both fail with `AttributeError` (rather than silently skipping
the report), and with a collector attached both succeed — inserting
resp. popping the session entry and emitting exactly one notification. -/
theorem C6_session_sink_amended :
    (∀ st ts (receiver : PNode) (content : ℤ) labels log flow deadline,
      st.collector = false →
      startSession st ts receiver content labels log flow deadline =
        .error "AttributeError: 'NoneType' object has no attribute 'start_session'") ∧
    (∀ st ts (receiver : PNode) (content : ℤ) labels log flow deadline,
      st.collector = true →
      startSession st ts receiver content labels log flow deadline =
        .ok ({ st with session := (aset st.session flow
          ⟨ts, receiver, content, labels, log, deadline⟩) },
          [Rpt.sessStart flow])) ∧
    (∀ st success ts flow, st.collector = false →
      endSession st success ts flow =
        .error "AttributeError: 'NoneType' object has no attribute 'end_session'") ∧
    (∀ st success ts flow, st.collector = true →
      endSession st success ts flow =
        .ok ({ st with session := adel st.session flow },
          [Rpt.sessEnd success flow])) := by
  refine ⟨?_, ?_, ?_, ?_⟩
  · intro st ts receiver content labels log flow deadline h
    simp [startSession, h]
  · intro st ts receiver content labels log flow deadline h
    simp [startSession, h]
  · intro st success ts flow h
    simp [endSession, h]
  · intro st success ts flow h
    simp [endSession, h]

/-- Witness for C6: concrete application on `ctrlC6` (no sink) and
`ctrlC6b` (sink attached). -/
theorem C6_session_sink_amended_witness :
    startSession ctrlC6 0 (.num 0) 7 [] true (.num 1) 0 =
      .error "AttributeError: 'NoneType' object has no attribute 'start_session'" ∧
    startSession ctrlC6b 0 (.num 0) 7 [] true (.num 1) 0 =
      .ok ({ ctrlC6b with session := (aset ctrlC6b.session (.num 1)
        ⟨0, .num 0, 7, [], true, 0⟩) }, [Rpt.sessStart (.num 1)]) ∧
    endSession ctrlC6 true 0 (.num 1) =
      .error "AttributeError: 'NoneType' object has no attribute 'end_session'" ∧
    endSession ctrlC6b true 0 (.num 1) =
      .ok ({ ctrlC6b with session := adel ctrlC6b.session (.num 1) },
        [Rpt.sessEnd true (.num 1)]) := by
  refine ⟨?_, ?_, ?_, ?_⟩
  · exact C6_session_sink_amended.1 ctrlC6 0 (.num 0) 7 [] true (.num 1) 0
      (by rfl)
  · exact C6_session_sink_amended.2.1 ctrlC6b 0 (.num 0) 7 [] true
      (.num 1) 0 (by rfl)
  · exact C6_session_sink_amended.2.2.1 ctrlC6 true 0 (.num 1) (by rfl)
  · exact C6_session_sink_amended.2.2.2 ctrlC6b true 0 (.num 1) (by rfl)

/-! ## C2: node removal / restoration round trip -/

/-- C2: the claim matches the documented intent (remove_node's own
docstring and the spec's fault-recovery property), but the code cannot
deliver it for any source node: the source-stash loops of `remove_node`
(network.py:2148) and `restore_node` (network.py:2175) dereference
`self.model.countent_source` — a misspelling of `content_source` that is
never initialised anywhere in `NetworkModel` — so removing a node with a
nonempty persistent source list raises `AttributeError` instead of
stashing the source assignment.  Concretely, removing source node 1 of
`mC2` (which persistently holds content 7) fails. -/
theorem C2_remove_node_countent_source_bug :
    removeNode mC2 (.num 1) true spC3 =
      .error "AttributeError: 'NetworkModel' object has no attribute 'countent_source'" ∧
    alookup mC2.source_node (.num 1) = some [7] :=
  ⟨rfl, rfl⟩

end Icarus
